import Mathlib

/-!
# Verification of the `Context` cancellation tree engine

Shallow embedding of `src/impl.ts` (`ContextImpl`, the synchronous-notify
revision) together with the error taxonomy of `src/errors.ts` and the host
interface of `src/host.ts`.

Object identity is modelled by allocation indices:
* contexts live in `World.ctxs`, a context reference is its index;
* cancellation reasons live in `World.reasons`, a reason reference is its
  index (so "same reference" is "same index");
* timers live in `World.timers`;
* listener wrapper records carry a unique `wid` (the JS code wraps every
  listener in a fresh object so that `indexOf` works by identity).

Listener callbacks that occur in the source are embedded syntactically:
the parent-subscription closure `(reason) => ContextImpl.cancel(this, reason)`,
the unsubscribe closures `() => disposable.dispose()` / the timer `dispose`,
and opaque user callbacks which record their invocation in a ghost log and
optionally throw a fixed error value.

All stateful operations are fuel-indexed total functions returning `none`
when fuel runs out; theorems are stated about successful runs.
-/

namespace ContextSpec

/-- JavaScript primitive values used for context keys and values; `===`
comparison on these is structural equality. An unset slot is `undef`
(the constructor stores `options.key` / `options.value`, which are
`undefined` when absent). -/
inductive JSVal where
  | undef
  | str (s : String)
  | num (n : Int)
  | sym (n : Nat)
deriving DecidableEq, Repr

/-- Reason objects (`CancelledError` / `DeadlineExceededError` from
`errors.ts`).  `CancelledError(message = 'Cancelled', cause?)`: the message
defaults to `"Cancelled"` when the argument is `undefined`; the cause is an
external `Error` object kept by reference (an id). -/
inductive Reason where
  | cancelled (message : String) (cause : Option Nat)
  | deadlineExceeded
deriving DecidableEq, Repr

/-- Values thrown by listener callbacks and rethrown/aggregated by `notify`:
either an opaque user error object (by id), an `AggregateError` wrapping the
collected errors in order, or the `invariant` failure in `notify`. -/
inductive Thrown where
  | userErr (e : Nat)
  | agg (errs : List Thrown)
  | invariantErr
deriving Repr

/-- A disposable handle, as returned by `onDidCancel` (`noopDisposable` or
the closure removing a wrapper from a context's listener array) and by
`host.scheduleWithTimeout` (clearing the timer). -/
inductive DHandle where
  | noop
  | lst (cid : Nat) (wid : Nat)
  | tmr (tid : Nat)
deriving DecidableEq, Repr

/-- The listener closures occurring in the source:
* `cancelChild c` — the constructor's `(reason) => ContextImpl.cancel(childCtx, reason)`;
* `disposeH h` — `() => disposable.dispose()` (the child's self-listener)
  and the timer `dispose` registered in `withDeadline`;
* `user u` — an opaque user-supplied callback. -/
inductive LFn where
  | cancelChild (cid : Nat)
  | disposeH (h : DHandle)
  | user (uid : Nat)
deriving DecidableEq, Repr

/-- `WrappedCancellationListener`: every registration wraps the callback in
a fresh record so two registrations of one function are distinct. -/
structure Wrapper where
  wid : Nat
  fn : LFn
deriving DecidableEq, Repr

/-- A context node (`ContextImpl`'s per-instance fields).  The host, the
abort-controller slot and the brand are global or irrelevant here. -/
structure Ctx where
  parent : Option Nat
  cancellationReason : Option Nat
  deadlineAt : Option Int
  key : JSVal
  value : JSVal
  listeners : List Wrapper
deriving Repr

/-- A one-shot host timer created by `scheduleWithTimeout`; its callback is
always `() => ContextImpl.cancel(childCtx, new DeadlineExceededError())`. -/
structure Timer where
  fireAt : Int
  childId : Nat
  disposed : Bool
  fired : Bool
deriving DecidableEq, Repr

/-- The whole mutable state: the host's clock and timer queue, the context
arena, the reason arena, the wrapper-id supply, the behaviour and ghost
invocation log of user listeners, and the host's optional
uncaught-exception sink with its log. -/
structure World where
  time : Int
  ctxs : List Ctx
  reasons : List Reason
  timers : List Timer
  nextWid : Nat
  /-- `uid ↦ error id` for user listeners that throw; absent = returns. -/
  userThrows : List (Nat × Nat)
  /-- ghost log: (uid, wrapper id if invoked via the queue, reason id). -/
  userLog : List (Nat × Option Nat × Nat)
  hasUncaughtHandler : Bool
  uncaughtLog : List Thrown
deriving Repr

namespace World

def ctx? (w : World) (i : Nat) : Option Ctx := w.ctxs[i]?

/-- Mutate one context in place (no-op on an invalid id). -/
def modifyCtx (w : World) (i : Nat) (f : Ctx → Ctx) : World :=
  match w.ctxs[i]? with
  | some c => { w with ctxs := w.ctxs.set i (f c) }
  | none => w

def reasonOf (w : World) (i : Nat) : Option Nat :=
  (w.ctx? i).bind Ctx.cancellationReason

def listenersOf (w : World) (i : Nat) : List Wrapper :=
  ((w.ctx? i).map Ctx.listeners).getD []

def parentOf (w : World) (i : Nat) : Option Nat :=
  (w.ctx? i).bind Ctx.parent

def deadlineOf (w : World) (i : Nat) : Option Int :=
  (w.ctx? i).bind Ctx.deadlineAt

/-- Allocate a fresh reason object, returning its reference. -/
def allocReason (w : World) (r : Reason) : World × Nat :=
  ({ w with reasons := w.reasons ++ [r] }, w.reasons.length)

end World

/-- `array.indexOf(ref)` + `splice(idx, 1)`: remove the first wrapper whose
identity (wid) matches, if present. -/
def removeFirstWid : List Wrapper → Nat → List Wrapper
  | [], _ => []
  | wr :: rest, wid => if wr.wid = wid then rest else wr :: removeFirstWid rest wid

/-- The head-shift `listeners.shift()` of the notify loop. -/
def shiftW (w : World) (x : Nat) : World :=
  w.modifyCtx x (fun cc => { cc with listeners := cc.listeners.tail })

/-- Storing a cancellation reason. -/
def setReasonW (w : World) (i : Nat) (r : Option Nat) : World :=
  w.modifyCtx i (fun cc => { cc with cancellationReason := r })

/-- Removing a wrapper by identity (the unsubscribe closure body). -/
def removeW (w : World) (t wid : Nat) : World :=
  w.modifyCtx t (fun c => { c with listeners := removeFirstWid c.listeners wid })

/-- Appending a fresh wrapper (`listeners.push(ref)`). -/
def pushW (w : World) (x : Nat) (wr : Wrapper) : World :=
  w.modifyCtx x (fun c => { c with listeners := c.listeners ++ [wr] })

/-- Disposing a handle: `noopDisposable.dispose()`, the listener-removal
closure of `onDidCancel`, or clearing a scheduled timer. -/
def disposeHandleF (w : World) (h : DHandle) : World :=
  match h with
  | .noop => w
  | .lst cid wid => removeW w cid wid
  | .tmr tid =>
    match w.timers[tid]? with
    | some t => { w with timers := w.timers.set tid { t with disposed := true } }
    | none => w

/-- `ContextImpl.notifyUncaughtException`: forward to the host's handler if
installed, else the exception escapes (is rethrown). -/
def notifyUncaughtF (w : World) (t : Thrown) : World × Option Thrown :=
  if w.hasUncaughtHandler then ({ w with uncaughtLog := w.uncaughtLog ++ [t] }, none)
  else (w, some t)

/-- Association-list lookup for `userThrows`. -/
def lookupThrow : List (Nat × Nat) → Nat → Option Nat
  | [], _ => none
  | (u, e) :: rest, uid => if u = uid then some e else lookupThrow rest uid

mutual

/-- `ContextImpl.cancel(ctx, reason)` (the private static).  Calls
`ctx.error()`; if that reports a reason the call is a no-op, otherwise the
given reason reference is stored and listeners are notified.  (The
`reason ?? new CancelledError()` fallback is dead: every call site passes a
freshly constructed reason.)  The `Option Thrown` is an exception escaping
from the notification cycle when no uncaught handler is installed. -/
def cancelF : Nat → World → Nat → Nat → Option (World × Option Thrown)
  | 0, _, _, _ => none
  | n + 1, w, cid, rid =>
    match errorF n w cid with
    | none => none
    | some (w1, res, esc) =>
      match esc with
      | some t => some (w1, some t)
      | none =>
        match res with
        | some _ => some (w1, none)
        | none =>
          notifyF n (setReasonW w1 cid (some rid)) cid
termination_by structural n => n

/-- `ContextImpl.prototype.error()`.  Returns the stored reason; otherwise
consults the parent chain, adopting (by reference) and immediately
notifying; otherwise lazily observes an expired deadline with a fresh
`DeadlineExceededError`.  Result: (world, reason reference, escaped
exception). -/
def errorF : Nat → World → Nat → Option (World × Option Nat × Option Thrown)
  | 0, _, _ => none
  | n + 1, w, cid =>
    match w.ctx? cid with
    | none => some (w, none, none)
    | some c =>
      match c.cancellationReason with
      | some r => some (w, some r, none)
      | none =>
        match c.parent with
        | some p =>
          match errorF n w p with
          | none => none
          | some (w1, pres, pesc) =>
            match pesc with
            | some t => some (w1, none, some t)
            | none =>
              match pres with
              | some r =>
                match notifyF n (setReasonW w1 cid (some r)) cid with
                | none => none
                | some (w3, esc) => some (w3, w3.reasonOf cid, esc)
              | none => errorDeadlineF n w1 c.deadlineAt cid
        | none => errorDeadlineF n w c.deadlineAt cid
termination_by structural n => n

/-- The deadline tail of `error()`: when `deadline_at` is a number and
`host.getTime() >= deadline_at`, assign a fresh `DeadlineExceededError` and
immediately notify. -/
def errorDeadlineF : Nat → World → Option Int → Nat → Option (World × Option Nat × Option Thrown)
  | 0, _, _, _ => none
  | n + 1, w, some d, cid =>
    if d ≤ w.time then
      match notifyF n (setReasonW { w with reasons := w.reasons ++ [Reason.deadlineExceeded] }
          cid (some w.reasons.length)) cid with
      | none => none
      | some (w3, esc) => some (w3, w3.reasonOf cid, esc)
    else some (w, none, none)
  | _ + 1, w, none, _ => some (w, none, none)
termination_by structural n _ _ _ => n

/-- `ContextImpl.notify(ctx)`: captures the stored reason (the `invariant`
throws if there is none), drains the listener queue collecting thrown
exceptions, then reports a single exception as-is or several wrapped in a
single `AggregateError`. -/
def notifyF : Nat → World → Nat → Option (World × Option Thrown)
  | 0, _, _ => none
  | n + 1, w, cid =>
    match w.ctx? cid with
    | none => some (w, none)
    | some c =>
      match c.cancellationReason with
      | none => some (w, some Thrown.invariantErr)
      | some reason =>
        match drainF n w cid reason [] with
        | none => none
        | some (w1, errs) =>
          match errs with
          | [] => some (w1, none)
          | [e] => some (notifyUncaughtF w1 e)
          | es => some (notifyUncaughtF w1 (.agg es))
termination_by structural n => n

/-- The `while (listeners.length) { shift(); try fn(reason) catch push }`
loop of `notify`, with the accumulated error list. -/
def drainF : Nat → World → Nat → Nat → List Thrown → Option (World × List Thrown)
  | 0, _, _, _, _ => none
  | n + 1, w, cid, reason, acc =>
    match w.ctx? cid with
    | none => some (w, acc)
    | some c =>
      match c.listeners with
      | [] => some (w, acc)
      | wr :: _ =>
        match invokeF n (shiftW w cid) wr.fn (some wr.wid) reason with
        | none => none
        | some (w2, thrown) =>
          drainF n w2 cid reason (acc ++ (match thrown with | some t => [t] | none => []))
termination_by structural n => n

/-- Invoke one listener callback with the reason reference; `wid?` is the
wrapper id recorded in the ghost log (`none` for the synchronous fast-path
call in `onDidCancel`, which bypasses the queue).  The returned
`Option Thrown` is the exception the callback threw, if any (a nested
cancellation whose notify rethrows surfaces here and is caught by the
caller's `try`). -/
def invokeF : Nat → World → LFn → Option Nat → Nat → Option (World × Option Thrown)
  | 0, _, _, _, _ => none
  | n + 1, w, .cancelChild c, _, rid => cancelF n w c rid
  | _ + 1, w, .disposeH h, _, _ => some (disposeHandleF w h, none)
  | _ + 1, w, .user u, wid?, rid =>
    some ({ w with userLog := w.userLog ++ [(u, wid?, rid)] },
      match lookupThrow w.userThrows u with
      | some e => some (.userErr e)
      | none => none)
termination_by structural n _ _ _ _ => n

end

/-- `ContextImpl.prototype.onDidCancel(listener)`.  Already-cancelled fast
path: invoke the listener synchronously (exceptions go to the uncaught
path) and return `noopDisposable` without registering.  Otherwise push a
fresh wrapper and return the removing disposable. -/
def onDidCancelF (n : Nat) (w : World) (cid : Nat) (fn : LFn) :
    Option (World × DHandle × Option Thrown) :=
  match w.ctx? cid with
  | none => some (w, .noop, none)
  | some c =>
    match c.cancellationReason with
    | some r =>
      match invokeF n w fn none r with
      | none => none
      | some (w1, thrown) =>
        match thrown with
        | some t =>
          let (w2, esc) := notifyUncaughtF w1 t
          some (w2, .noop, esc)
        | none => some (w1, .noop, none)
    | none =>
      some (pushW { w with nextWid := w.nextWid + 1 } cid ⟨w.nextWid, fn⟩,
        .lst cid w.nextWid, none)

/-- Options for the `ContextImpl` constructor. -/
structure CtxOpts where
  cancellationReason : Option Nat := none
  deadlineAt : Option Int := none
  key : JSVal := .undef
  value : JSVal := .undef
  parent : Option Nat := none

/-- The node stored by the constructor before any registration. -/
def newborn (opts : CtxOpts) : Ctx :=
  { parent := opts.parent, cancellationReason := opts.cancellationReason,
    deadlineAt := opts.deadlineAt, key := opts.key, value := opts.value, listeners := [] }

/-- Growing the arena by one node. -/
def appendCtx (w : World) (c : Ctx) : World := { w with ctxs := w.ctxs ++ [c] }

/-- The `ContextImpl` constructor: store the fields, then (when a parent is
given) register the propagation listener `(reason) => cancel(this, reason)`
on the parent and a self-listener that disposes that parent subscription.
If the parent is already cancelled the first registration invokes the
propagation listener synchronously (the fast path); similarly for the
second when `this` is already cancelled.  Returns the new context's id. -/
def newCtxF (n : Nat) (w : World) (opts : CtxOpts) : Option (World × Nat × Option Thrown) :=
  match opts.parent with
  | none => some (appendCtx w (newborn opts), w.ctxs.length, none)
  | some p =>
    match onDidCancelF n (appendCtx w (newborn opts)) p (.cancelChild w.ctxs.length) with
    | none => none
    | some (w2, d, esc1) =>
      match esc1 with
      | some t => some (w2, w.ctxs.length, some t)
      | none =>
        match onDidCancelF n w2 w.ctxs.length (.disposeH d) with
        | none => none
        | some (w3, _, esc2) => some (w3, w.ctxs.length, esc2)

/-- `ContextImpl.withCancel(ctx)`: child carries `ctx.error()` as its
initial reason and inherits `ctx[kDeadlineAt]`.  Returns the child id; the
associated cancel function is modelled by `cancelCallF`. -/
def withCancelF (n : Nat) (w : World) (pid : Nat) : Option (World × Nat × Option Thrown) :=
  match errorF n w pid with
  | none => none
  | some (w1, pres, pesc) =>
    match pesc with
    | some t => some (w1, 0, some t)
    | none =>
      newCtxF n w1
        { cancellationReason := pres, deadlineAt := w1.deadlineOf pid, parent := some pid }

/-- The argument given to the cancel function returned by `withCancel`:
nothing, a string message, or an `Error` object (by reference). -/
inductive CancelArg where
  | noArg
  | msg (s : String)
  | err (e : Nat)
deriving DecidableEq, Repr

/-- The reason object constructed by the `withCancel` cancel closure for a
given argument: `message instanceof Error` becomes the cause of a fresh
`CancelledError(undefined, message)` (message defaults to `"Cancelled"`);
a string becomes the message; no argument gives the default message. -/
def argReason : CancelArg → Reason
  | .err e => .cancelled "Cancelled" (some e)
  | .msg s => .cancelled s none
  | .noArg => .cancelled "Cancelled" none

/-- Calling the cancel function captured by `withCancel`: construct the
`CancelledError`, then `ContextImpl.cancel(childCtx, reason)`.
`withDeadline`'s cancel function is `cancelCallF … .noArg`. -/
def cancelCallF (n : Nat) (w : World) (childId : Nat) (arg : CancelArg) :
    Option (World × Option Thrown) :=
  cancelF n (w.allocReason (argReason arg)).1 childId (w.allocReason (argReason arg)).2

/-- `parentDeadlineAt ? Math.min(parentDeadlineAt, epochTimeMs) :
epochTimeMs` — JavaScript truthiness: a parent deadline of `0` counts as
absent. -/
def effDeadline (pd : Option Int) (epochTimeMs : Int) : Int :=
  match pd with
  | some d => if d ≠ 0 then min d epochTimeMs else epochTimeMs
  | none => epochTimeMs

/-- `!parentDeadlineAt || parentDeadlineAt > deadlineAt`: schedule a timer
unless the parent's (truthy) deadline fires no later than the effective
one. -/
def newTimerCond (pd : Option Int) (epochTimeMs : Int) : Bool :=
  match pd with
  | none => true
  | some d => d = 0 || decide (d > effDeadline pd epochTimeMs)

/-- Appending a freshly scheduled one-shot timer. -/
def appendTimer (w : World) (t : Timer) : World := { w with timers := w.timers ++ [t] }

/-- `ContextImpl.withDeadline(ctx, epochTimeMs, now?)`.  The dispose handle
of the scheduled timer is registered via `ctx.onDidCancel(dispose)` — on
the parent. -/
def withDeadlineF (n : Nat) (w : World) (pid : Nat) (epochTimeMs : Int) (now? : Option Int) :
    Option (World × Nat × Option Thrown) :=
  match errorF n w pid with
  | none => none
  | some (w1, pres, pesc) =>
    match pesc with
    | some t => some (w1, 0, some t)
    | none =>
      match newCtxF n w1
          { cancellationReason := pres,
            deadlineAt := some (effDeadline (w.deadlineOf pid) epochTimeMs),
            parent := some pid } with
      | none => none
      | some (w2, cid, esc1) =>
        match esc1 with
        | some t => some (w2, cid, some t)
        | none =>
          if newTimerCond (w.deadlineOf pid) epochTimeMs then
            match onDidCancelF n
              (appendTimer w2
                { fireAt := w2.time + (effDeadline (w.deadlineOf pid) epochTimeMs - now?.getD w2.time),
                  childId := cid, disposed := false, fired := false })
              pid (.disposeH (.tmr w2.timers.length)) with
            | none => none
            | some (w4, _, esc2) => some (w4, cid, esc2)
          else some (w2, cid, none)

/-- `ContextImpl.withTimeout(ctx, timeoutMs)`: an absolute deadline at
`getTime() + timeoutMs`, with the captured `now`. -/
def withTimeoutF (n : Nat) (w : World) (pid : Nat) (timeoutMs : Int) :
    Option (World × Nat × Option Thrown) :=
  withDeadlineF n w pid (w.time + timeoutMs) (some w.time)

/-- `ContextImpl.prototype.withValue(key, value)`: a child sharing the
stored reason (the raw field, not `error()`), deadline and parentage, with
one key/value slot. -/
def withValueF (n : Nat) (w : World) (pid : Nat) (k v : JSVal) :
    Option (World × Nat × Option Thrown) :=
  newCtxF n w
    { cancellationReason := w.reasonOf pid, deadlineAt := w.deadlineOf pid, key := k, value := v,
      parent := some pid }

/-- `getValue(key)`: nearest binding along the ancestor chain by `===`;
`undefined` when no node binds the key. -/
def getValueF : Nat → World → Nat → JSVal → Option JSVal
  | 0, _, _, _ => none
  | n + 1, w, cid, k =>
    match w.ctx? cid with
    | none => some (JSVal.undef)
    | some c =>
      if c.key = k then some c.value
      else
        match c.parent with
        | some p => getValueF n w p k
        | none => some (JSVal.undef)

/-- `hasValue(key)`: `this[kKey] === key || (parent?.hasValue(key) ?? false)`. -/
def hasValueF : Nat → World → Nat → JSVal → Option Bool
  | 0, _, _, _ => none
  | n + 1, w, cid, k =>
    match w.ctx? cid with
    | none => some false
    | some c =>
      if c.key = k then some true
      else
        match c.parent with
        | some p => hasValueF n w p k
        | none => some false

/-- `ContextImpl.background(host)`: the memoized root for a host — here the
initial world, whose single context has no parent, no deadline, no reason. -/
def initWorld (hasHandler : Bool) (userThrows : List (Nat × Nat)) : World :=
  { time := 0
    ctxs := [{ parent := none, cancellationReason := none, deadlineAt := none,
               key := .undef, value := .undef, listeners := [] }]
    reasons := []
    timers := []
    nextWid := 0
    userThrows := userThrows
    userLog := []
    hasUncaughtHandler := hasHandler
    uncaughtLog := [] }

/-- Advance the host clock without running timer callbacks (the
"suppressed timer" situation: a long synchronous computation, or a test
host that withholds callbacks). -/
def advanceTime (w : World) (delta : Int) : World := { w with time := w.time + delta }

/-- Structural skeleton of the context arena: the executor (cancel / error /
notify and the listener closures) never creates contexts and never touches
the `parent`, `deadlineAt`, `key` or `value` fields — only
`cancellationReason` and `listeners` change. -/
structure SameCtxSkel (w w' : World) : Prop where
  len : w'.ctxs.length = w.ctxs.length
  fields : ∀ i, (w'.ctx? i).map Ctx.parent = (w.ctx? i).map Ctx.parent ∧
       (w'.ctx? i).map Ctx.deadlineAt = (w.ctx? i).map Ctx.deadlineAt ∧
       (w'.ctx? i).map Ctx.key = (w.ctx? i).map Ctx.key ∧
       (w'.ctx? i).map Ctx.value = (w.ctx? i).map Ctx.value
  time : w'.time = w.time
  timersLen : w'.timers.length = w.timers.length
  nextWid : w'.nextWid = w.nextWid
  userThrows : w'.userThrows = w.userThrows
  handler : w'.hasUncaughtHandler = w.hasUncaughtHandler

/-! ## Wellformedness of the listener wiring

These invariants hold in every world reachable through the public API and
are what the cancellation-propagation proofs rely on:
* `wfLinks`: a registered `cancelChild c` closure targets an existing
  context whose `parent` is the context holding the listener (the closure
  is created only in the constructor, on `options.parent`);
* `wfWired`: an uncancelled child is wired: its propagation wrapper is in
  its parent's listener list;
* `wfDisp`: an unsubscribe closure held by context `i` targeting wrapper
  `wid` of context `t`'s list only ever removes `i`'s own propagation
  wrapper (the constructor's `disposable.dispose()` self-listener). -/

def targetOf : LFn → Option Nat
  | .cancelChild c => some c
  | _ => none

def lstTargetOf : LFn → Option (Nat × Nat)
  | .disposeH (.lst t wid) => some (t, wid)
  | _ => none

def wfLinks (w : World) : Prop :=
  ∀ i < w.ctxs.length, ∀ wr ∈ w.listenersOf i, ∀ c ∈ targetOf wr.fn,
    c < w.ctxs.length ∧ w.parentOf c = some i

def wfWired (w : World) : Prop :=
  ∀ c < w.ctxs.length, ∀ p ∈ w.parentOf c, w.reasonOf c = none →
    ∃ wr ∈ w.listenersOf p, wr.fn = .cancelChild c

def wfDisp (w : World) : Prop :=
  ∀ i < w.ctxs.length, ∀ wr ∈ w.listenersOf i, ∀ tw ∈ lstTargetOf wr.fn,
    ∀ u ∈ w.listenersOf tw.1, u.wid = tw.2 → u.fn = .cancelChild i

def wfW (w : World) : Prop := wfLinks w ∧ wfWired w ∧ wfDisp w

instance (w : World) : Decidable (wfW w) := by
  unfold wfW wfLinks wfWired wfDisp
  infer_instance

/-- Postcondition bundle for one cancellation/notification cascade with
reason reference `r`:  the wiring invariants survive, settled reasons are
stable, every freshly settled reason is exactly `r`, a freshly cancelled
context has been fully drained, listener queues only shrink, the skeleton
is unchanged and no reason object is allocated. -/
structure EOut (w w' : World) (r : Nat) : Prop where
  wf : wfW w'
  mono : ∀ i r0, w.reasonOf i = some r0 → w'.reasonOf i = some r0
  newr : ∀ i, w.reasonOf i = none → w'.reasonOf i = none ∨ w'.reasonOf i = some r
  drained : ∀ i, w.reasonOf i = none → w'.reasonOf i = some r → w'.listenersOf i = []
  shrink : ∀ i, List.Sublist (w'.listenersOf i) (w.listenersOf i)
  skel : SameCtxSkel w w'
  reasonsEq : w'.reasons = w.reasons

/-- A strict descendant chain below `x`: successive parent links, every
member still uncancelled. -/
def isChain (w : World) : Nat → List Nat → Prop
  | _, [] => True
  | x, cid :: rest =>
    w.parentOf cid = some x ∧ w.reasonOf cid = none ∧ cid < w.ctxs.length ∧ isChain w cid rest

instance isChainDec : (w : World) → (x : Nat) → (l : List Nat) → Decidable (isChain w x l)
  | _, _, [] => .isTrue trivial
  | w, x, cid :: rest => by
    unfold isChain
    have := isChainDec w cid rest
    infer_instance

/-- Extract the world from a constructor result (default for the `none`
case, which the concrete runs below never hit). -/
def pick3 (o : Option (World × Nat × Option Thrown)) (d : World) : World :=
  match o with
  | some (w, _, _) => w
  | none => d

def w0F : World := initWorld false []

def wC1a : World := pick3 (withCancelF 10 w0F 0) w0F

def wC1b : World := pick3 (withCancelF 10 wC1a 1) wC1a

def wC1r : World := (wC1b.allocReason (.cancelled "stop" none)).1

def resC1 : World × Option Thrown := (cancelF 20 wC1r 1 0).getD (wC1r, none)

def wC2a : World := pick3 (withDeadlineF 20 w0F 0 5 none) w0F

def wC2 : World := advanceTime wC2a 5

def cC2 : Ctx := (wC2.ctx? 1).getD ⟨none, none, none, .undef, .undef, []⟩

def resC2 : World × Option Nat × Option Thrown := (errorF 20 wC2 1).getD (wC2, none, none)

def wC4b : World := pick3 (withCancelF 20 wC2a 1) wC2a

def wC4 : World := advanceTime wC4b 5

def resC4 : World × Option Thrown := (cancelCallF 30 wC4 2 (.msg "boom")).getD (wC4, none)

def resC4w : World × Option Thrown := (cancelCallF 20 wC1a 1 (.err 42)).getD (wC1a, none)

/-- Bumping the wrapper-id supply. -/
def withNextWid (w : World) (k : Nat) : World := { w with nextWid := k }

/-- Constructor options passed by `withDeadline` on a live parent. -/
def dlOpts (w : World) (pid : Nat) (epoch : Int) : CtxOpts :=
  { cancellationReason := none,
    deadlineAt := some (effDeadline (w.deadlineOf pid) epoch), parent := some pid }

/-- The world right after `withDeadline`'s constructor call on a live
parent: child appended, propagation wrapper on the parent, unsubscribe
wrapper on the child. -/
def dlW2 (w : World) (pid : Nat) (epoch : Int) : World :=
  pushW
    (withNextWid
      (pushW (withNextWid (appendCtx w (newborn (dlOpts w pid epoch))) (w.nextWid + 1)) pid
        ⟨w.nextWid, .cancelChild w.ctxs.length⟩)
      (w.nextWid + 2))
    w.ctxs.length ⟨w.nextWid + 1, .disposeH (.lst pid w.nextWid)⟩

/-- The timer scheduled by `withDeadline` when its timer condition holds. -/
def dlTimer (w : World) (pid : Nat) (epoch : Int) (now? : Option Int) : Timer :=
  { fireAt := (dlW2 w pid epoch).time +
      (effDeadline (w.deadlineOf pid) epoch - now?.getD (dlW2 w pid epoch).time),
    childId := w.ctxs.length, disposed := false, fired := false }

/-- The tail of `withDeadline` after the constructor call, on a live
parent. -/
def dlRes (n : Nat) (w : World) (pid : Nat) (epoch : Int) (now? : Option Int) :
    Option (World × Nat × Option Thrown) :=
  if newTimerCond (w.deadlineOf pid) epoch then
    match onDidCancelF n (appendTimer (dlW2 w pid epoch) (dlTimer w pid epoch now?)) pid
        (.disposeH (.tmr (dlW2 w pid epoch).timers.length)) with
    | none => none
    | some (w4, _, esc2) => some (w4, w.ctxs.length, esc2)
  else some (dlW2 w pid epoch, w.ctxs.length, none)

def w0N : World := advanceTime w0F (-10)

def wC5a : World := pick3 (withDeadlineF 20 w0N 0 0 none) w0N

def resC5 : World × Nat × Option Thrown := (withDeadlineF 30 wC5a 1 5 none).getD (wC5a, 0, none)

def cC5w : Ctx := (wC2a.ctx? 1).getD ⟨none, none, none, .undef, .undef, []⟩

def resC5w : World × Nat × Option Thrown := (withDeadlineF 19 wC2a 1 7 none).getD (wC2a, 0, none)

def wC6a : World := pick3 (withDeadlineF 20 w0F 0 100 none) w0F

def resC6 : World × Option Thrown := (cancelCallF 30 wC6a 1 .noArg).getD (wC6a, none)

def cC6w : Ctx := (w0F.ctx? 0).getD ⟨none, none, none, .undef, .undef, []⟩

def resC6w : World × Nat × Option Thrown := (withDeadlineF 19 w0F 0 100 none).getD (w0F, 0, none)

/-- Emptying a context's listener list in place. -/
def setListenersW (w : World) (cid : Nat) (l : List Wrapper) : World :=
  w.modifyCtx cid (fun c => { c with listeners := l })

/-- Appending ghost user-invocation log entries. -/
def appendLog (w : World) (es : List (Nat × Option Nat × Nat)) : World :=
  { w with userLog := w.userLog ++ es }

/-- The ghost log entries a drain of these wrappers produces: one per user
listener, in queue order. -/
def userLogOf (r : Nat) : List Wrapper → List (Nat × Option Nat × Nat)
  | [] => []
  | wr :: rest =>
    (match wr.fn with | .user u => [(u, some wr.wid, r)] | _ => []) ++ userLogOf r rest

/-- The exceptions a drain of these wrappers collects, in queue order: one
per throwing user listener. -/
def errsOf (th : List (Nat × Nat)) : List Wrapper → List Thrown
  | [] => []
  | wr :: rest =>
    (match wr.fn with
      | .user u => (match lookupThrow th u with | some e => [Thrown.userErr e] | none => [])
      | _ => []) ++ errsOf th rest

attribute [ext] World Ctx

def cC7 : Ctx :=
  { parent := none, cancellationReason := some 0, deadlineAt := none, key := .undef,
    value := .undef, listeners := [⟨0, .user 10⟩, ⟨1, .user 11⟩, ⟨2, .user 12⟩] }

def wC7 : World :=
  { time := 0, ctxs := [cC7], reasons := [.cancelled "stop" none], timers := [],
    nextWid := 3, userThrows := [(10, 0), (12, 1)], userLog := [], hasUncaughtHandler := false,
    uncaughtLog := [] }

def cC8f : Ctx := (resC6.1.ctx? 1).getD ⟨none, none, none, .undef, .undef, []⟩

def cC8r : Ctx := (resC6.1.ctx? 0).getD ⟨none, none, none, .undef, .undef, []⟩

/-- Occurrences of wrapper id `wid` in one context's listener list. -/
def wrCnt (wid : Nat) (c : Ctx) : Nat := c.listeners.countP (fun wr => wr.wid == wid)

/-- Occurrences of wrapper id `wid` across all listener lists. -/
def cntL (w : World) (wid : Nat) : Nat := (w.ctxs.map (wrCnt wid)).sum

/-- Queue deliveries to wrapper id `wid` recorded in the ghost log. -/
def cntLog (w : World) (wid : Nat) : Nat := w.userLog.countP (fun e => e.2.1 == some wid)

/-- Registered occurrences plus deliveries of wrapper id `wid`. -/
def cntW (w : World) (wid : Nat) : Nat := cntL w wid + cntLog w wid

def pickD (o : Option (World × DHandle × Option Thrown)) (d : World) : World :=
  match o with | some (w, _, _) => w | none => d

def wC9a : World := pickD (onDidCancelF 5 w0F 0 (.user 20)) w0F

def wC9b : World := pickD (onDidCancelF 5 wC9a 0 (.user 21)) wC9a

def wC9c : World := disposeHandleF wC9b (.lst 0 1)

def wC9r : World := (wC9c.allocReason (.cancelled "stop" none)).1

def resC9 : World × Option Thrown := (cancelF 20 wC9r 0 0).getD (wC9r, none)

def cC10 : Ctx := (wC1b.ctx? 2).getD ⟨none, none, none, .str "x", .str "x", []⟩

/-! ## Basic state lemmas -/

namespace World

theorem ctx?_modifyCtx_self (w : World) (i : Nat) (f : Ctx → Ctx) :
    (w.modifyCtx i f).ctx? i = (w.ctx? i).map f := by
  unfold modifyCtx ctx?
  cases h : w.ctxs[i]? with
  | none => simp [h]
  | some c =>
    have hi : i < w.ctxs.length := (List.getElem?_eq_some_iff.mp h).1
    simp [h, List.getElem?_set, hi]

theorem ctx?_modifyCtx_ne (w : World) (i : Nat) (f : Ctx → Ctx) (j : Nat) (hij : i ≠ j) :
    (w.modifyCtx i f).ctx? j = w.ctx? j := by
  unfold modifyCtx ctx?
  cases h : w.ctxs[i]? with
  | none => simp
  | some c => simp [List.getElem?_set, hij]

@[simp] theorem time_modifyCtx (w : World) (i : Nat) (f : Ctx → Ctx) :
    (w.modifyCtx i f).time = w.time := by
  unfold modifyCtx; cases h : w.ctxs[i]? <;> simp

@[simp] theorem reasons_modifyCtx (w : World) (i : Nat) (f : Ctx → Ctx) :
    (w.modifyCtx i f).reasons = w.reasons := by
  unfold modifyCtx; cases h : w.ctxs[i]? <;> simp

@[simp] theorem timers_modifyCtx (w : World) (i : Nat) (f : Ctx → Ctx) :
    (w.modifyCtx i f).timers = w.timers := by
  unfold modifyCtx; cases h : w.ctxs[i]? <;> simp

@[simp] theorem nextWid_modifyCtx (w : World) (i : Nat) (f : Ctx → Ctx) :
    (w.modifyCtx i f).nextWid = w.nextWid := by
  unfold modifyCtx; cases h : w.ctxs[i]? <;> simp

@[simp] theorem userThrows_modifyCtx (w : World) (i : Nat) (f : Ctx → Ctx) :
    (w.modifyCtx i f).userThrows = w.userThrows := by
  unfold modifyCtx; cases h : w.ctxs[i]? <;> simp

@[simp] theorem userLog_modifyCtx (w : World) (i : Nat) (f : Ctx → Ctx) :
    (w.modifyCtx i f).userLog = w.userLog := by
  unfold modifyCtx; cases h : w.ctxs[i]? <;> simp

@[simp] theorem hasUncaughtHandler_modifyCtx (w : World) (i : Nat) (f : Ctx → Ctx) :
    (w.modifyCtx i f).hasUncaughtHandler = w.hasUncaughtHandler := by
  unfold modifyCtx; cases h : w.ctxs[i]? <;> simp

@[simp] theorem uncaughtLog_modifyCtx (w : World) (i : Nat) (f : Ctx → Ctx) :
    (w.modifyCtx i f).uncaughtLog = w.uncaughtLog := by
  unfold modifyCtx; cases h : w.ctxs[i]? <;> simp

@[simp] theorem length_modifyCtx (w : World) (i : Nat) (f : Ctx → Ctx) :
    (w.modifyCtx i f).ctxs.length = w.ctxs.length := by
  unfold modifyCtx; cases h : w.ctxs[i]? <;> simp

end World

theorem removeFirstWid_sublist (l : List Wrapper) (wid : Nat) :
    List.Sublist (removeFirstWid l wid) l := by
  induction l with
  | nil => simp [removeFirstWid]
  | cons wr rest ih =>
    unfold removeFirstWid
    by_cases h : wr.wid = wid
    · simp [h]
    · simpa [h] using List.Sublist.cons₂ wr ih

theorem SameCtxSkel.refl (w : World) : SameCtxSkel w w :=
  ⟨rfl, fun _ => ⟨rfl, rfl, rfl, rfl⟩, rfl, rfl, rfl, rfl, rfl⟩

theorem SameCtxSkel.trans {w1 w2 w3 : World} (h12 : SameCtxSkel w1 w2) (h23 : SameCtxSkel w2 w3) :
    SameCtxSkel w1 w3 := by
  refine ⟨h23.len.trans h12.len, fun i => ?_, h23.time.trans h12.time,
    h23.timersLen.trans h12.timersLen, h23.nextWid.trans h12.nextWid,
    h23.userThrows.trans h12.userThrows, h23.handler.trans h12.handler⟩
  obtain ⟨a1, b1, c1, d1⟩ := h12.fields i
  obtain ⟨a2, b2, c2, d2⟩ := h23.fields i
  exact ⟨a2.trans a1, b2.trans b1, c2.trans c1, d2.trans d1⟩

theorem skel_of_eqs {w w' : World} (hc : w'.ctxs = w.ctxs)
    (htl : w'.timers.length = w.timers.length) (ht : w'.time = w.time)
    (hn : w'.nextWid = w.nextWid) (hu : w'.userThrows = w.userThrows)
    (hh : w'.hasUncaughtHandler = w.hasUncaughtHandler) : SameCtxSkel w w' := by
  refine ⟨by rw [hc], fun i => ?_, ht, htl, hn, hu, hh⟩
  simp [World.ctx?, hc]

theorem skel_modify_reason (w : World) (i : Nat) (x : Option Nat) :
    SameCtxSkel w (w.modifyCtx i (fun c => { c with cancellationReason := x })) := by
  refine ⟨by simp, fun j => ?_, by simp, by simp, by simp, by simp, by simp⟩
  by_cases hij : i = j
  · subst hij
    rw [World.ctx?_modifyCtx_self]
    cases w.ctx? i <;> simp
  · rw [World.ctx?_modifyCtx_ne _ _ _ _ hij]
    exact ⟨rfl, rfl, rfl, rfl⟩

theorem skel_modify_listeners (w : World) (i : Nat) (g : List Wrapper → List Wrapper) :
    SameCtxSkel w (w.modifyCtx i (fun c => { c with listeners := g c.listeners })) := by
  refine ⟨by simp, fun j => ?_, by simp, by simp, by simp, by simp, by simp⟩
  by_cases hij : i = j
  · subst hij
    rw [World.ctx?_modifyCtx_self]
    cases w.ctx? i <;> simp
  · rw [World.ctx?_modifyCtx_ne _ _ _ _ hij]
    exact ⟨rfl, rfl, rfl, rfl⟩

theorem skel_disposeHandle (w : World) (h : DHandle) : SameCtxSkel w (disposeHandleF w h) := by
  cases h with
  | noop => exact SameCtxSkel.refl w
  | lst cid wid =>
    simp only [disposeHandleF]
    exact skel_modify_listeners w cid (fun l => removeFirstWid l wid)
  | tmr tid =>
    simp only [disposeHandleF]
    cases ht : w.timers[tid]? with
    | none => exact SameCtxSkel.refl w
    | some t => exact skel_of_eqs rfl (by simp) rfl rfl rfl rfl

theorem skel_notifyUncaught (w : World) (t : Thrown) :
    SameCtxSkel w (notifyUncaughtF w t).1 := by
  unfold notifyUncaughtF
  by_cases h : w.hasUncaughtHandler <;> simp [h]
  · exact skel_of_eqs rfl rfl rfl rfl rfl (by simp [h])
  · exact SameCtxSkel.refl w

/-- The executor preserves the context-arena skeleton. -/
theorem execSkel : ∀ n : Nat,
    (∀ w cid rid res, cancelF n w cid rid = some res → SameCtxSkel w res.1) ∧
    (∀ w cid res, errorF n w cid = some res → SameCtxSkel w res.1) ∧
    (∀ w dl cid res, errorDeadlineF n w dl cid = some res → SameCtxSkel w res.1) ∧
    (∀ w cid res, notifyF n w cid = some res → SameCtxSkel w res.1) ∧
    (∀ w cid r acc res, drainF n w cid r acc = some res → SameCtxSkel w res.1) ∧
    (∀ w fn wid? rid res, invokeF n w fn wid? rid = some res → SameCtxSkel w res.1) := by
  intro n
  induction n with
  | zero =>
    refine ⟨?_, ?_, ?_, ?_, ?_, ?_⟩
    · intro _ _ _ _ h; simp [cancelF] at h
    · intro _ _ _ h; simp [errorF] at h
    · intro _ _ _ _ h; simp [errorDeadlineF] at h
    · intro _ _ _ h; simp [notifyF] at h
    · intro _ _ _ _ _ h; simp [drainF] at h
    · intro _ _ _ _ _ h; simp [invokeF] at h
  | succ n ih =>
    obtain ⟨ihC, ihE, ihD, ihN, ihR, ihI⟩ := ih
    refine ⟨?_, ?_, ?_, ?_, ?_, ?_⟩
    · -- cancelF
      intro w cid rid res h
      rw [cancelF] at h
      split at h
      · exact absurd h (by simp)
      · rename_i w1 res1 esc1 heq
        have hs1 := ihE w cid _ heq
        split at h
        · cases h; exact hs1
        · split at h
          · cases h; exact hs1
          · exact hs1.trans ((skel_modify_reason w1 cid _).trans (ihN _ _ _ h))
    · -- errorF
      intro w cid res h
      rw [errorF] at h
      split at h
      · cases h; exact SameCtxSkel.refl w
      · rename_i c hc
        split at h
        · cases h; exact SameCtxSkel.refl w
        · split at h
          · -- parent present
            rename_i p hp
            split at h
            · exact absurd h (by simp)
            · rename_i w1 pres pesc heq
              have hs1 := ihE w p _ heq
              split at h
              · cases h; exact hs1
              · split at h
                · -- parent reason adopted
                  split at h
                  · exact absurd h (by simp)
                  · rename_i w3 esc hn
                    have hs2 := hs1.trans ((skel_modify_reason w1 cid _).trans (ihN _ _ _ hn))
                    cases h; exact hs2
                · exact hs1.trans (ihD _ _ _ _ h)
          · exact ihD _ _ _ _ h
    · -- errorDeadlineF
      intro w dl cid res h
      cases dl with
      | none => rw [errorDeadlineF] at h; cases h; exact SameCtxSkel.refl w
      | some d =>
        rw [errorDeadlineF] at h
        split at h
        · split at h
          · exact absurd h (by simp)
          · rename_i w3 esc hn
            have hs0 : SameCtxSkel w { w with reasons := w.reasons ++ [Reason.deadlineExceeded] } :=
              skel_of_eqs rfl rfl rfl rfl rfl rfl
            have hs2 := hs0.trans ((skel_modify_reason _ cid _).trans (ihN _ _ _ hn))
            cases h; exact hs2
        · cases h; exact SameCtxSkel.refl w
    · -- notifyF
      intro w cid res h
      rw [notifyF] at h
      split at h
      · cases h; exact SameCtxSkel.refl w
      · rename_i c hc
        split at h
        · cases h; exact SameCtxSkel.refl w
        · rename_i reason hr
          split at h
          · exact absurd h (by simp)
          · rename_i w1 errs hd
            have hs1 := ihR w cid reason [] _ hd
            split at h
            · cases h; exact hs1
            · cases h; exact hs1.trans (skel_notifyUncaught w1 _)
            · cases h; exact hs1.trans (skel_notifyUncaught w1 _)
    · -- drainF
      intro w cid r acc res h
      rw [drainF] at h
      split at h
      · cases h; exact SameCtxSkel.refl w
      · rename_i c hc
        split at h
        · cases h; exact SameCtxSkel.refl w
        · rename_i wr rest hl
          split at h
          · exact absurd h (by simp)
          · rename_i w2 thrown hi
            exact ((skel_modify_listeners w cid (fun l => l.tail)).trans
              (ihI _ _ _ _ _ hi)).trans (ihR _ _ _ _ _ h)
    · -- invokeF
      intro w fn wid? rid res h
      cases fn with
      | cancelChild c => rw [invokeF] at h; exact ihC _ _ _ _ h
      | disposeH hd => rw [invokeF] at h; cases h; exact skel_disposeHandle w _
      | user u => rw [invokeF] at h; cases h; exact skel_of_eqs rfl rfl rfl rfl rfl rfl

namespace World

theorem reasonOf_modifyCtx_pres {f : Ctx → Ctx}
    (hf : ∀ c, (f c).cancellationReason = c.cancellationReason) (w : World) (x i : Nat) :
    (w.modifyCtx x f).reasonOf i = w.reasonOf i := by
  unfold reasonOf
  by_cases hix : x = i
  · subst hix
    rw [ctx?_modifyCtx_self]
    cases w.ctx? x with
    | none => rfl
    | some c => simp [hf c]
  · rw [ctx?_modifyCtx_ne _ _ _ _ hix]

theorem listenersOf_modifyCtx_pres {f : Ctx → Ctx}
    (hf : ∀ c, (f c).listeners = c.listeners) (w : World) (x i : Nat) :
    (w.modifyCtx x f).listenersOf i = w.listenersOf i := by
  unfold listenersOf
  by_cases hix : x = i
  · subst hix
    rw [ctx?_modifyCtx_self]
    cases w.ctx? x with
    | none => rfl
    | some c => simp [hf c]
  · rw [ctx?_modifyCtx_ne _ _ _ _ hix]

theorem reasonOf_modifyCtx_self {w : World} {x : Nat} {c : Ctx} (f : Ctx → Ctx)
    (hc : w.ctx? x = some c) :
    (w.modifyCtx x f).reasonOf x = (f c).cancellationReason := by
  unfold reasonOf
  rw [ctx?_modifyCtx_self, hc]
  rfl

theorem reasonOf_modifyCtx_ne {w : World} {x i : Nat} (f : Ctx → Ctx) (h : x ≠ i) :
    (w.modifyCtx x f).reasonOf i = w.reasonOf i := by
  unfold reasonOf
  rw [ctx?_modifyCtx_ne _ _ _ _ h]

theorem listenersOf_modifyCtx_self {w : World} {x : Nat} {c : Ctx} (f : Ctx → Ctx)
    (hc : w.ctx? x = some c) :
    (w.modifyCtx x f).listenersOf x = (f c).listeners := by
  unfold listenersOf
  rw [ctx?_modifyCtx_self, hc]
  rfl

theorem listenersOf_modifyCtx_ne {w : World} {x i : Nat} (f : Ctx → Ctx) (h : x ≠ i) :
    (w.modifyCtx x f).listenersOf i = w.listenersOf i := by
  unfold listenersOf
  rw [ctx?_modifyCtx_ne _ _ _ _ h]

theorem parentOf_modifyCtx_pres {f : Ctx → Ctx}
    (hf : ∀ c, (f c).parent = c.parent) (w : World) (x i : Nat) :
    (w.modifyCtx x f).parentOf i = w.parentOf i := by
  unfold parentOf
  by_cases hix : x = i
  · subst hix
    rw [ctx?_modifyCtx_self]
    cases w.ctx? x with
    | none => rfl
    | some c => simp [hf c]
  · rw [ctx?_modifyCtx_ne _ _ _ _ hix]

theorem ctx?_isSome_iff (w : World) (i : Nat) : (w.ctx? i).isSome ↔ i < w.ctxs.length := by
  unfold ctx?
  simp [List.getElem?_eq_some_iff, Option.isSome_iff_exists]
  constructor
  · rintro ⟨c, hc, -⟩; exact hc
  · intro h; exact ⟨w.ctxs[i], h, rfl⟩

theorem lt_of_ctx?_eq_some {w : World} {i : Nat} {c : Ctx} (h : w.ctx? i = some c) :
    i < w.ctxs.length := by
  have := (ctx?_isSome_iff w i).mp (by rw [h]; rfl)
  exact this

end World

theorem SameCtxSkel.parentOf {w w' : World} (h : SameCtxSkel w w') (i : Nat) :
    w'.parentOf i = w.parentOf i := by
  have hm := (h.fields i).1
  unfold World.parentOf
  cases hx : w'.ctx? i with
  | none =>
    rw [hx] at hm
    cases hy : w.ctx? i with
    | none => rfl
    | some c => rw [hy] at hm; simp at hm
  | some c =>
    rw [hx] at hm
    cases hy : w.ctx? i with
    | none => rw [hy] at hm; simp at hm
    | some c2 => rw [hy] at hm; simp at hm; simp [hm]

theorem SameCtxSkel.deadlineOf {w w' : World} (h : SameCtxSkel w w') (i : Nat) :
    w'.deadlineOf i = w.deadlineOf i := by
  have hm := (h.fields i).2.1
  unfold World.deadlineOf
  cases hx : w'.ctx? i with
  | none =>
    rw [hx] at hm
    cases hy : w.ctx? i with
    | none => rfl
    | some c => rw [hy] at hm; simp at hm
  | some c =>
    rw [hx] at hm
    cases hy : w.ctx? i with
    | none => rw [hy] at hm; simp at hm
    | some c2 => rw [hy] at hm; simp at hm; simp [hm]

theorem World.listenersOf_eq_of_ctx? {w : World} {x : Nat} {c : Ctx} (hc : w.ctx? x = some c) :
    w.listenersOf x = c.listeners := by
  unfold World.listenersOf
  rw [hc]
  rfl

theorem World.reasonOf_eq_of_ctx? {w : World} {x : Nat} {c : Ctx} (hc : w.ctx? x = some c) :
    w.reasonOf x = c.cancellationReason := by
  unfold World.reasonOf
  rw [hc]
  rfl

theorem World.parentOf_eq_of_ctx? {w : World} {x : Nat} {c : Ctx} (hc : w.ctx? x = some c) :
    w.parentOf x = c.parent := by
  unfold World.parentOf
  rw [hc]
  rfl

theorem World.deadlineOf_eq_of_ctx? {w : World} {x : Nat} {c : Ctx} (hc : w.ctx? x = some c) :
    w.deadlineOf x = c.deadlineAt := by
  unfold World.deadlineOf
  rw [hc]
  rfl

theorem World.exists_ctx?_of_lt {w : World} {i : Nat} (h : i < w.ctxs.length) :
    ∃ c, w.ctx? i = some c := by
  have := (World.ctx?_isSome_iff w i).mpr h
  exact Option.isSome_iff_exists.mp this

theorem mem_removeFirstWid_of_ne {l : List Wrapper} {a : Wrapper} {wid : Nat}
    (ha : a ∈ l) (hne : a.wid ≠ wid) : a ∈ removeFirstWid l wid := by
  induction l with
  | nil => cases ha
  | cons wr rest ih =>
    unfold removeFirstWid
    by_cases h : wr.wid = wid
    · simp [h]
      rcases List.mem_cons.mp ha with h1 | h1
      · subst h1; exact absurd h hne
      · exact h1
    · simp [h]
      rcases List.mem_cons.mp ha with h1 | h1
      · exact Or.inl h1
      · exact Or.inr (ih h1)

theorem wf_of_ctxs_eq {w w' : World} (h : w'.ctxs = w.ctxs) (hw : wfW w) : wfW w' := by
  have e : ∀ i, w'.ctx? i = w.ctx? i := by intro i; unfold World.ctx?; rw [h]
  have el : ∀ i, w'.listenersOf i = w.listenersOf i := by
    intro i; unfold World.listenersOf; rw [e]
  have ep : ∀ i, w'.parentOf i = w.parentOf i := by
    intro i; unfold World.parentOf; rw [e]
  have er : ∀ i, w'.reasonOf i = w.reasonOf i := by
    intro i; unfold World.reasonOf; rw [e]
  have elen : w'.ctxs.length = w.ctxs.length := by rw [h]
  obtain ⟨hA, hC, hD⟩ := hw
  refine ⟨?_, ?_, ?_⟩
  · intro i hi wr hwr c hc
    have := hA i (elen ▸ hi) wr ((el i) ▸ hwr) c hc
    exact ⟨elen ▸ this.1, (ep c) ▸ this.2⟩
  · intro c hc p hp hr
    obtain ⟨wr, hm, hf⟩ := hC c (elen ▸ hc) p ((ep c) ▸ hp) ((er c) ▸ hr)
    exact ⟨wr, (el p) ▸ hm, hf⟩
  · intro i hi wr hwr tw htw u hu hwid
    exact hD i (elen ▸ hi) wr ((el i) ▸ hwr) tw htw u ((el tw.1) ▸ hu) hwid

theorem wfLinks_shrink {w w' : World} (hw : wfLinks w)
    (hlen : w'.ctxs.length = w.ctxs.length)
    (hpar : ∀ i, w'.parentOf i = w.parentOf i)
    (hshr : ∀ i, List.Sublist (w'.listenersOf i) (w.listenersOf i)) : wfLinks w' := by
  intro i hi wr hwr c hc
  have h2 := hw i (hlen ▸ hi) wr ((hshr i).mem hwr) c hc
  exact ⟨hlen ▸ h2.1, (hpar c) ▸ h2.2⟩

theorem wfDisp_shrink {w w' : World} (hw : wfDisp w)
    (hlen : w'.ctxs.length = w.ctxs.length)
    (hshr : ∀ i, List.Sublist (w'.listenersOf i) (w.listenersOf i)) : wfDisp w' := by
  intro i hi wr hwr tw htw u hu hwid
  exact hw i (hlen ▸ hi) wr ((hshr i).mem hwr) tw htw u ((hshr tw.1).mem hu) hwid

theorem shiftW_reasonOf (w : World) (x i : Nat) : (shiftW w x).reasonOf i = w.reasonOf i :=
  World.reasonOf_modifyCtx_pres (f := fun cc => { cc with listeners := cc.listeners.tail })
    (fun _ => rfl) w x i

theorem shiftW_parentOf (w : World) (x i : Nat) : (shiftW w x).parentOf i = w.parentOf i :=
  World.parentOf_modifyCtx_pres (f := fun cc => { cc with listeners := cc.listeners.tail })
    (fun _ => rfl) w x i

theorem shiftW_len (w : World) (x : Nat) : (shiftW w x).ctxs.length = w.ctxs.length :=
  World.length_modifyCtx w x _

theorem shiftW_listenersOf_self {w : World} {x : Nat} {c : Ctx} (hc : w.ctx? x = some c) :
    (shiftW w x).listenersOf x = c.listeners.tail :=
  World.listenersOf_modifyCtx_self _ hc

theorem shiftW_listenersOf_ne {w : World} (x : Nat) {i : Nat} (h : x ≠ i) :
    (shiftW w x).listenersOf i = w.listenersOf i :=
  World.listenersOf_modifyCtx_ne _ h

theorem shiftW_listenersOf_sublist (w : World) (x i : Nat) :
    List.Sublist ((shiftW w x).listenersOf i) (w.listenersOf i) := by
  by_cases hix : x = i
  · subst hix
    cases hc : w.ctx? x with
    | none =>
      have : shiftW w x = w := by
        unfold shiftW World.modifyCtx
        unfold World.ctx? at hc
        rw [hc]
      rw [this]
    | some c =>
      rw [shiftW_listenersOf_self hc, World.listenersOf_eq_of_ctx? hc]
      exact List.tail_sublist c.listeners
  · rw [shiftW_listenersOf_ne x hix]

theorem setReasonW_listenersOf (w : World) (i : Nat) (r : Option Nat) (j : Nat) :
    (setReasonW w i r).listenersOf j = w.listenersOf j :=
  World.listenersOf_modifyCtx_pres (f := fun cc => { cc with cancellationReason := r })
    (fun _ => rfl) w i j

theorem setReasonW_parentOf (w : World) (i : Nat) (r : Option Nat) (j : Nat) :
    (setReasonW w i r).parentOf j = w.parentOf j :=
  World.parentOf_modifyCtx_pres (f := fun cc => { cc with cancellationReason := r })
    (fun _ => rfl) w i j

theorem setReasonW_len (w : World) (i : Nat) (r : Option Nat) :
    (setReasonW w i r).ctxs.length = w.ctxs.length :=
  World.length_modifyCtx w i _

theorem setReasonW_reasonOf_self {w : World} {i : Nat} {c : Ctx} (r : Option Nat)
    (hc : w.ctx? i = some c) : (setReasonW w i r).reasonOf i = r :=
  World.reasonOf_modifyCtx_self _ hc

theorem setReasonW_reasonOf_ne {w : World} (i : Nat) {j : Nat} (r : Option Nat) (h : i ≠ j) :
    (setReasonW w i r).reasonOf j = w.reasonOf j :=
  World.reasonOf_modifyCtx_ne _ h

/-- Shifting a wrapper whose invocation cannot cancel a live child (a user
callback, an unsubscribe closure, or a propagation closure for an
already-cancelled child) preserves the wiring invariants. -/
theorem wf_shift_safe {w : World} {x : Nat} {c : Ctx} {wr : Wrapper} {rest : List Wrapper}
    (hw : wfW w) (hc : w.ctx? x = some c) (hl : c.listeners = wr :: rest)
    (hsafe : ∀ c' ∈ targetOf wr.fn, w.reasonOf c' ≠ none) : wfW (shiftW w x) := by
  obtain ⟨hA, hC, hD⟩ := hw
  refine ⟨wfLinks_shrink hA (shiftW_len w x) (shiftW_parentOf w x)
    (shiftW_listenersOf_sublist w x), ?_, wfDisp_shrink hD (shiftW_len w x)
    (shiftW_listenersOf_sublist w x)⟩
  intro c' hc' p hp hr
  rw [shiftW_len] at hc'
  rw [shiftW_parentOf] at hp
  rw [shiftW_reasonOf] at hr
  obtain ⟨wr', hm, hf⟩ := hC c' hc' p hp hr
  by_cases hpx : p = x
  · subst hpx
    rw [World.listenersOf_eq_of_ctx? hc, hl] at hm
    rcases List.mem_cons.mp hm with h1 | h1
    · subst h1
      exfalso
      apply hsafe c' _ hr
      rw [hf]
      rfl
    · exact ⟨wr', by rw [shiftW_listenersOf_self hc, hl]; exact h1, hf⟩
  · exact ⟨wr', by rw [shiftW_listenersOf_ne x (fun he => hpx he.symm)]; exact hm, hf⟩

/-- Shifting the propagation wrapper of a live child and then storing the
parent's reason on that child preserves the wiring invariants. -/
theorem wf_shift_set {w : World} {x : Nat} {c : Ctx} {wid0 c0 : Nat} {rest : List Wrapper}
    (hw : wfW w) (hc : w.ctx? x = some c)
    (hl : c.listeners = ⟨wid0, .cancelChild c0⟩ :: rest) (r : Nat) :
    wfW (setReasonW (shiftW w x) c0 (some r)) := by
  obtain ⟨hA, hC, hD⟩ := hw
  have hx : x < w.ctxs.length := World.lt_of_ctx?_eq_some hc
  have hmem : (⟨wid0, .cancelChild c0⟩ : Wrapper) ∈ w.listenersOf x := by
    rw [World.listenersOf_eq_of_ctx? hc, hl]
    exact List.mem_cons_self _ _
  have hc0 := hA x hx _ hmem c0 (by rfl)
  obtain ⟨cc0, hcc0⟩ := World.exists_ctx?_of_lt (w := shiftW w x)
    (by rw [shiftW_len]; exact hc0.1)
  have hlen : (setReasonW (shiftW w x) c0 (some r)).ctxs.length = w.ctxs.length := by
    rw [setReasonW_len, shiftW_len]
  have hpar : ∀ j, (setReasonW (shiftW w x) c0 (some r)).parentOf j = w.parentOf j := by
    intro j; rw [setReasonW_parentOf, shiftW_parentOf]
  have hlst : ∀ j, (setReasonW (shiftW w x) c0 (some r)).listenersOf j =
      (shiftW w x).listenersOf j := fun j => setReasonW_listenersOf _ _ _ j
  have hshr : ∀ j, List.Sublist ((setReasonW (shiftW w x) c0 (some r)).listenersOf j)
      (w.listenersOf j) := by
    intro j; rw [hlst j]; exact shiftW_listenersOf_sublist w x j
  refine ⟨wfLinks_shrink hA hlen hpar hshr, ?_, wfDisp_shrink hD hlen hshr⟩
  intro c' hc' p hp hr
  have hrc0 : (setReasonW (shiftW w x) c0 (some r)).reasonOf c0 = some r :=
    setReasonW_reasonOf_self _ hcc0
  have hne : c0 ≠ c' := by
    intro he; subst he; rw [hrc0] at hr; exact absurd hr (by simp)
  rw [hlen] at hc'
  rw [hpar] at hp
  rw [setReasonW_reasonOf_ne _ _ hne, shiftW_reasonOf] at hr
  obtain ⟨wr', hm, hf⟩ := hC c' hc' p hp hr
  rw [hlst]
  by_cases hpx : p = x
  · subst hpx
    rw [World.listenersOf_eq_of_ctx? hc, hl] at hm
    rcases List.mem_cons.mp hm with h1 | h1
    · exfalso
      apply hne
      subst h1
      exact (by simpa using hf.symm : c' = c0).symm
    · refine ⟨wr', ?_, hf⟩
      rw [shiftW_listenersOf_self hc, hl]
      exact h1
  · exact ⟨wr', by rw [shiftW_listenersOf_ne x (fun he => hpx he.symm)]; exact hm, hf⟩

theorem disposeHandleF_lst (w : World) (t wid : Nat) :
    disposeHandleF w (.lst t wid) = removeW w t wid := rfl

theorem removeW_reasonOf (w : World) (t wid i : Nat) :
    (removeW w t wid).reasonOf i = w.reasonOf i :=
  World.reasonOf_modifyCtx_pres
    (f := fun c => { c with listeners := removeFirstWid c.listeners wid }) (fun _ => rfl) w t i

theorem removeW_parentOf (w : World) (t wid i : Nat) :
    (removeW w t wid).parentOf i = w.parentOf i :=
  World.parentOf_modifyCtx_pres
    (f := fun c => { c with listeners := removeFirstWid c.listeners wid }) (fun _ => rfl) w t i

theorem removeW_len (w : World) (t wid : Nat) :
    (removeW w t wid).ctxs.length = w.ctxs.length :=
  World.length_modifyCtx w t _

theorem removeW_listenersOf_self {w : World} {t : Nat} {ct : Ctx} (wid : Nat)
    (hct : w.ctx? t = some ct) :
    (removeW w t wid).listenersOf t = removeFirstWid ct.listeners wid :=
  World.listenersOf_modifyCtx_self _ hct

theorem removeW_listenersOf_ne {w : World} (t wid : Nat) {i : Nat} (h : t ≠ i) :
    (removeW w t wid).listenersOf i = w.listenersOf i :=
  World.listenersOf_modifyCtx_ne _ h

theorem removeW_listenersOf_sublist (w : World) (t wid i : Nat) :
    List.Sublist ((removeW w t wid).listenersOf i) (w.listenersOf i) := by
  by_cases hti : t = i
  · subst hti
    cases hc : w.ctx? t with
    | none =>
      have : removeW w t wid = w := by
        unfold removeW World.modifyCtx
        unfold World.ctx? at hc
        rw [hc]
      rw [this]
    | some c =>
      rw [removeW_listenersOf_self wid hc, World.listenersOf_eq_of_ctx? hc]
      exact removeFirstWid_sublist c.listeners wid
  · rw [removeW_listenersOf_ne t wid hti]

theorem disposeHandleF_tmr_ctxs (w : World) (tid : Nat) :
    (disposeHandleF w (.tmr tid)).ctxs = w.ctxs := by
  simp only [disposeHandleF]
  cases ht : w.timers[tid]? <;> simp [ht]

/-- Shifting an unsubscribe wrapper off the head of a cancelled context's
queue and running it preserves the wiring invariants. -/
theorem wf_shift_dispose {w : World} {x : Nat} {c : Ctx} {wid0 : Nat} {h : DHandle}
    {rest : List Wrapper} {r : Nat}
    (hw : wfW w) (hc : w.ctx? x = some c)
    (hl : c.listeners = ⟨wid0, .disposeH h⟩ :: rest) (hxr : w.reasonOf x = some r) :
    wfW (disposeHandleF (shiftW w x) h) := by
  have hsafe : ∀ c' ∈ targetOf (LFn.disposeH h), w.reasonOf c' ≠ none := by
    intro c' hc'; simp [targetOf] at hc'
  have hwS : wfW (shiftW w x) := wf_shift_safe hw hc hl hsafe
  cases h with
  | noop => exact hwS
  | tmr tid => exact wf_of_ctxs_eq (disposeHandleF_tmr_ctxs _ tid) hwS
  | lst t wid =>
    rw [disposeHandleF_lst]
    obtain ⟨hA, hC, hD⟩ := hw
    have hx : x < w.ctxs.length := World.lt_of_ctx?_eq_some hc
    have hhead : (⟨wid0, .disposeH (.lst t wid)⟩ : Wrapper) ∈ w.listenersOf x := by
      rw [World.listenersOf_eq_of_ctx? hc, hl]
      exact List.mem_cons_self _ _
    have hlen : (removeW (shiftW w x) t wid).ctxs.length = w.ctxs.length := by
      rw [removeW_len, shiftW_len]
    have hpar : ∀ j, (removeW (shiftW w x) t wid).parentOf j = w.parentOf j := by
      intro j; rw [removeW_parentOf, shiftW_parentOf]
    have hrsn : ∀ j, (removeW (shiftW w x) t wid).reasonOf j = w.reasonOf j := by
      intro j; rw [removeW_reasonOf, shiftW_reasonOf]
    have hshr : ∀ j, List.Sublist ((removeW (shiftW w x) t wid).listenersOf j)
        (w.listenersOf j) := by
      intro j
      exact (removeW_listenersOf_sublist _ t wid j).trans (shiftW_listenersOf_sublist w x j)
    refine ⟨wfLinks_shrink hA hlen hpar hshr, ?_, wfDisp_shrink hD hlen hshr⟩
    intro c' hc' p hp hr
    rw [hlen] at hc'
    rw [hpar] at hp
    rw [hrsn] at hr
    obtain ⟨wr', hm, hf⟩ := hC c' hc' p hp hr
    -- the witness survives the shift
    have hm1 : wr' ∈ (shiftW w x).listenersOf p := by
      by_cases hpx : p = x
      · subst hpx
        rw [World.listenersOf_eq_of_ctx? hc, hl] at hm
        rcases List.mem_cons.mp hm with h1 | h1
        · exfalso; rw [h1] at hf; simp at hf
        · rw [shiftW_listenersOf_self hc, hl]; exact h1
      · rw [shiftW_listenersOf_ne x (fun he => hpx he.symm)]; exact hm
    -- and survives the removal
    refine ⟨wr', ?_, hf⟩
    by_cases hpt : t = p
    · subst hpt
      have hwid : wr'.wid ≠ wid := by
        intro hwe
        have := hD x hx _ hhead (t, wid) (by rfl) wr' hm hwe
        rw [hf] at this
        have hcx : c' = x := by simpa using this
        rw [hcx, hxr] at hr
        exact absurd hr (by simp)
      cases hct : (shiftW w x).ctx? t with
      | none =>
        have : removeW (shiftW w x) t wid = shiftW w x := by
          unfold removeW World.modifyCtx
          unfold World.ctx? at hct
          rw [hct]
        rw [this]
        exact hm1
      | some ct =>
        rw [removeW_listenersOf_self wid hct]
        have heq : (shiftW w x).listenersOf t = ct.listeners := World.listenersOf_eq_of_ctx? hct
        rw [heq] at hm1
        exact mem_removeFirstWid_of_ne hm1 hwid
    · rw [removeW_listenersOf_ne t wid hpt]
      exact hm1

theorem World.reasonOf_congr_ctxs {w w' : World} (h : w'.ctxs = w.ctxs) (i : Nat) :
    w'.reasonOf i = w.reasonOf i := by
  unfold World.reasonOf World.ctx?
  rw [h]

theorem World.listenersOf_congr_ctxs {w w' : World} (h : w'.ctxs = w.ctxs) (i : Nat) :
    w'.listenersOf i = w.listenersOf i := by
  unfold World.listenersOf World.ctx?
  rw [h]

theorem disposeHandleF_reasonOf (w : World) (h : DHandle) (i : Nat) :
    (disposeHandleF w h).reasonOf i = w.reasonOf i := by
  cases h with
  | noop => rfl
  | lst t wid => exact removeW_reasonOf w t wid i
  | tmr tid => exact World.reasonOf_congr_ctxs (disposeHandleF_tmr_ctxs w tid) i

theorem disposeHandleF_reasons (w : World) (h : DHandle) :
    (disposeHandleF w h).reasons = w.reasons := by
  cases h with
  | noop => rfl
  | lst t wid => simp [disposeHandleF_lst, removeW]
  | tmr tid => simp only [disposeHandleF]; cases ht : w.timers[tid]? <;> simp

theorem disposeHandleF_listenersOf_sublist (w : World) (h : DHandle) (i : Nat) :
    List.Sublist ((disposeHandleF w h).listenersOf i) (w.listenersOf i) := by
  cases h with
  | noop => exact List.Sublist.refl _
  | lst t wid => exact removeW_listenersOf_sublist w t wid i
  | tmr tid => rw [World.listenersOf_congr_ctxs (disposeHandleF_tmr_ctxs w tid) i]

theorem notifyUncaughtF_ctxs (w : World) (t : Thrown) : (notifyUncaughtF w t).1.ctxs = w.ctxs := by
  unfold notifyUncaughtF
  split <;> rfl

theorem notifyUncaughtF_reasons (w : World) (t : Thrown) :
    (notifyUncaughtF w t).1.reasons = w.reasons := by
  unfold notifyUncaughtF
  split <;> rfl

theorem EOut.here {w : World} {r : Nat} (hw : wfW w) : EOut w w r := by
  refine ⟨hw, fun _ _ h => h, fun _ h => Or.inl h, ?_, fun _ => List.Sublist.refl _,
    SameCtxSkel.refl w, Eq.refl _⟩
  intro i h1 h2
  rw [h1] at h2
  cases h2

theorem EOut.comp {w1 w2 w3 : World} {r : Nat} (a : EOut w1 w2 r) (b : EOut w2 w3 r) :
    EOut w1 w3 r := by
  refine ⟨b.wf, fun i r0 h => b.mono i r0 (a.mono i r0 h), ?_, ?_,
    fun i => (b.shrink i).trans (a.shrink i), a.skel.trans b.skel, b.reasonsEq.trans a.reasonsEq⟩
  · intro i h
    rcases a.newr i h with h1 | h1
    · exact b.newr i h1
    · exact Or.inr (b.mono i r h1)
  · intro i h1 h3
    rcases a.newr i h1 with h2 | h2
    · exact b.drained i h2 h3
    · have := a.drained i h1 h2
      have hs := b.shrink i
      rw [this] at hs
      exact List.sublist_nil.mp hs

/-- `error()` on a context whose reason is already stored returns that very
reference and changes nothing. -/
theorem errorF_of_reasonSome {w : World} {cid r : Nat} (n : Nat)
    (h : w.reasonOf cid = some r) : errorF (n + 1) w cid = some (w, some r, none) := by
  unfold World.reasonOf at h
  cases hc : w.ctx? cid with
  | none => rw [hc] at h; cases h
  | some c =>
    rw [hc] at h
    rw [errorF, hc]
    simp only [Option.bind] at h
    simp [h]

/-- `cancel` on a context whose reason is already stored is a no-op. -/
theorem cancelF_of_reasonSome {w : World} {cid r : Nat} (n : Nat) (rid : Nat)
    (h : w.reasonOf cid = some r) : cancelF (n + 2) w cid rid = some (w, none) := by
  rw [cancelF, errorF_of_reasonSome (n := n) h]

/-- One-step bundle: a world change that keeps the context arena and the
reason arena intact. -/
theorem EOut_of_ctxs_eq {w w' : World} {r : Nat} (hw : wfW w)
    (hc : w'.ctxs = w.ctxs) (hr : w'.reasons = w.reasons) (hsk : SameCtxSkel w w') :
    EOut w w' r := by
  refine ⟨wf_of_ctxs_eq hc hw, ?_, ?_, ?_, ?_, hsk, hr⟩
  · intro i r0 h; rw [World.reasonOf_congr_ctxs hc]; exact h
  · intro i h; rw [World.reasonOf_congr_ctxs hc]; exact Or.inl h
  · intro i h1 h2; rw [World.reasonOf_congr_ctxs hc] at h2; rw [h1] at h2; cases h2
  · intro i; rw [World.listenersOf_congr_ctxs hc]

/-- One-step bundle for the head shift, when the shifted wrapper cannot
cancel a live child. -/
theorem EOut_shift_safe {w : World} {x : Nat} {c : Ctx} {wr : Wrapper} {rest : List Wrapper}
    {r : Nat} (hw : wfW w) (hc : w.ctx? x = some c) (hl : c.listeners = wr :: rest)
    (hsafe : ∀ c' ∈ targetOf wr.fn, w.reasonOf c' ≠ none) : EOut w (shiftW w x) r := by
  refine ⟨wf_shift_safe hw hc hl hsafe, ?_, ?_, ?_, shiftW_listenersOf_sublist w x,
    skel_modify_listeners w x _, by simp [shiftW]⟩
  · intro i r0 h; rw [shiftW_reasonOf]; exact h
  · intro i h; rw [shiftW_reasonOf]; exact Or.inl h
  · intro i h1 h2; rw [shiftW_reasonOf] at h2; rw [h1] at h2; cases h2

/-- One-step bundle for a handle disposal after a safe shift. -/
theorem EOut_shift_dispose {w : World} {x : Nat} {c : Ctx} {wid0 : Nat} {h : DHandle}
    {rest : List Wrapper} {r : Nat}
    (hw : wfW w) (hc : w.ctx? x = some c)
    (hl : c.listeners = ⟨wid0, .disposeH h⟩ :: rest) (hxr : w.reasonOf x = some r) :
    EOut w (disposeHandleF (shiftW w x) h) r := by
  have hsafe : ∀ c' ∈ targetOf (LFn.disposeH h), w.reasonOf c' ≠ none := by
    intro c' hc'; simp [targetOf] at hc'
  refine ⟨wf_shift_dispose hw hc hl hxr, ?_, ?_, ?_, ?_,
    (skel_modify_listeners w x _).trans (skel_disposeHandle _ h), ?_⟩
  · intro i r0 hr; rw [disposeHandleF_reasonOf, shiftW_reasonOf]; exact hr
  · intro i hr; rw [disposeHandleF_reasonOf, shiftW_reasonOf]; exact Or.inl hr
  · intro i h1 h2
    rw [disposeHandleF_reasonOf, shiftW_reasonOf] at h2
    rw [h1] at h2; cases h2
  · intro i
    exact (disposeHandleF_listenersOf_sublist _ h i).trans (shiftW_listenersOf_sublist w x i)
  · rw [disposeHandleF_reasons]; simp [shiftW]

theorem somePairEq {α β : Type _} {a c : α} {b d : β}
    (h : (some (a, b) : Option (α × β)) = some (c, d)) : a = c ∧ b = d := by
  injection h with h1
  exact ⟨congrArg Prod.fst h1, congrArg Prod.snd h1⟩

theorem someTripleEq {α β γ : Type _} {x1 x2 : α} {y1 y2 : β} {z1 z2 : γ}
    (h : (some (x1, y1, z1) : Option (α × β × γ)) = some (x2, y2, z2)) :
    x1 = x2 ∧ y1 = y2 ∧ z1 = z2 := by
  injection h with h1
  exact ⟨congrArg Prod.fst h1, congrArg (fun p => p.2.1) h1, congrArg (fun p => p.2.2) h1⟩

/-- Master lemma for the synchronous notification cascade: notifying a
context whose stored reason is `r` (resp. running its drain loop) preserves
the wiring invariants, settles only the reason `r` on previously
unsettled contexts, fully drains every context it settles as well as the
notified context itself, only shrinks listener queues, and allocates no
reason objects. -/
theorem execBundle : ∀ n : Nat,
    (∀ w x r res, wfW w → w.reasonOf x = some r → notifyF n w x = some res →
      EOut w res.1 r ∧ res.1.listenersOf x = []) ∧
    (∀ w x r acc res, wfW w → w.reasonOf x = some r → drainF n w x r acc = some res →
      EOut w res.1 r ∧ res.1.listenersOf x = []) := by
  intro n
  induction n using Nat.strong_induction_on with
  | _ n ih =>
  constructor
  · -- notifyF
    intro w x r res hw hxr h
    cases n with
    | zero => rw [notifyF] at h; exact absurd h (by simp)
    | succ m =>
      rw [notifyF] at h
      split at h
      · rename_i hcn
        unfold World.reasonOf at hxr
        rw [hcn] at hxr
        cases hxr
      · rename_i c hc
        split at h
        · rename_i hrn
          rw [World.reasonOf_eq_of_ctx? hc, hrn] at hxr
          cases hxr
        · rename_i reason hrs
          have hreq : reason = r := by
            rw [World.reasonOf_eq_of_ctx? hc, hrs] at hxr
            exact Option.some.inj hxr
          subst hreq
          split at h
          · exact absurd h (by simp)
          · rename_i w1 errs hd
            obtain ⟨hE1, hL1⟩ := (ih m (Nat.lt_succ_self m)).2 w x reason [] (w1, errs) hw hxr hd
            split at h
            · cases h; exact ⟨hE1, hL1⟩
            · rename_i e
              cases h
              refine ⟨hE1.comp (EOut_of_ctxs_eq hE1.wf (notifyUncaughtF_ctxs w1 e)
                (notifyUncaughtF_reasons w1 e) (skel_notifyUncaught w1 e)), ?_⟩
              rw [World.listenersOf_congr_ctxs (notifyUncaughtF_ctxs w1 e)]
              exact hL1
            · rename_i es h1 h2
              cases h
              refine ⟨hE1.comp (EOut_of_ctxs_eq hE1.wf (notifyUncaughtF_ctxs w1 _)
                (notifyUncaughtF_reasons w1 _) (skel_notifyUncaught w1 _)), ?_⟩
              rw [World.listenersOf_congr_ctxs (notifyUncaughtF_ctxs w1 _)]
              exact hL1
  · -- drainF
    intro w x r acc res hw hxr h
    cases n with
    | zero => rw [drainF] at h; exact absurd h (by simp)
    | succ m =>
      rw [drainF] at h
      split at h
      · rename_i hcn
        cases h
        refine ⟨EOut.here hw, ?_⟩
        unfold World.listenersOf
        rw [hcn]
        rfl
      · rename_i c hc
        split at h
        · rename_i hl
          cases h
          refine ⟨EOut.here hw, ?_⟩
          rw [World.listenersOf_eq_of_ctx? hc, hl]
        · rename_i wr rest hl
          split at h
          · exact absurd h (by simp)
          · rename_i w2 thrown hI
            -- one listener invocation, then the rest of the loop
            have hmlt : m < m + 1 := Nat.lt_succ_self m
            -- build `EOut w w2 r` by cases on the invoked closure
            have hEw2 : EOut w w2 r := by
              cases hfn : wr.fn with
              | user u =>
                rw [hfn] at hI
                cases m with
                | zero => rw [invokeF] at hI; exact absurd hI (by simp)
                | succ k =>
                  rw [invokeF] at hI
                  obtain ⟨he1, he2⟩ := somePairEq hI
                  subst he1
                  have hsafe : ∀ c' ∈ targetOf (LFn.user u), w.reasonOf c' ≠ none := by
                    intro c' hc'; simp [targetOf] at hc'
                  have hl' : c.listeners = ⟨wr.wid, LFn.user u⟩ :: rest := by
                    rw [hl]
                    obtain ⟨ww, ff⟩ := wr
                    simp only at hfn
                    rw [hfn]
                  refine (EOut_shift_safe hw hc hl' hsafe).comp
                    (EOut_of_ctxs_eq (wf_shift_safe hw hc hl' hsafe) rfl rfl
                      (skel_of_eqs rfl rfl rfl rfl rfl rfl))
              | disposeH hd =>
                rw [hfn] at hI
                cases m with
                | zero => rw [invokeF] at hI; exact absurd hI (by simp)
                | succ k =>
                  rw [invokeF] at hI
                  obtain ⟨he1, he2⟩ := somePairEq hI
                  subst he1
                  have hl' : c.listeners = ⟨wr.wid, LFn.disposeH hd⟩ :: rest := by
                    rw [hl]
                    obtain ⟨ww, ff⟩ := wr
                    simp only at hfn
                    rw [hfn]
                  exact EOut_shift_dispose hw hc hl' hxr
              | cancelChild c0 =>
                rw [hfn] at hI
                have hl' : c.listeners = ⟨wr.wid, LFn.cancelChild c0⟩ :: rest := by
                  rw [hl]
                  obtain ⟨ww, ff⟩ := wr
                  simp only at hfn
                  rw [hfn]
                have hx : x < w.ctxs.length := World.lt_of_ctx?_eq_some hc
                have hmem : (⟨wr.wid, LFn.cancelChild c0⟩ : Wrapper) ∈ w.listenersOf x := by
                  rw [World.listenersOf_eq_of_ctx? hc, hl']
                  exact List.mem_cons_self _ _
                have hc0 := hw.1 x hx _ hmem c0 (by rfl)
                have hlt0 : c0 < (shiftW w x).ctxs.length := by
                  rw [shiftW_len]; exact hc0.1
                obtain ⟨cc0, hcc0⟩ := World.exists_ctx?_of_lt hlt0
                cases m with
                | zero => rw [invokeF] at hI; exact absurd hI (by simp)
                | succ k =>
                  rw [invokeF] at hI
                  cases k with
                  | zero => rw [cancelF] at hI; exact absurd hI (by simp)
                  | succ k1 =>
                    rw [cancelF] at hI
                    split at hI
                    · exact absurd hI (by simp)
                    · rename_i w1e res1 esc1 hE
                      cases k1 with
                      | zero => rw [errorF] at hE; exact absurd hE (by simp)
                      | succ k2 =>
                        rw [errorF] at hE
                        split at hE
                        · rename_i hnn; rw [hcc0] at hnn; cases hnn
                        · rename_i cc0' hcc0'
                          have hcc0e : cc0' = cc0 := by
                            rw [hcc0] at hcc0'; exact (Option.some.inj hcc0').symm
                          subst hcc0e
                          split at hE
                          · -- the child already had a reason: the whole call is a no-op
                            rename_i r0 hrr
                            obtain ⟨he1, he2, he3⟩ := someTripleEq hE
                            subst he1; subst he2; subst he3
                            have hI2 : some (shiftW w x, (none : Option Thrown)) =
                                some (w2, thrown) := hI
                            obtain ⟨he4, he5⟩ := somePairEq hI2
                            subst he4
                            have hrw : w.reasonOf c0 = some r0 := by
                              have h1 := World.reasonOf_eq_of_ctx? hcc0
                              rw [hrr] at h1
                              rw [shiftW_reasonOf] at h1
                              exact h1
                            refine EOut_shift_safe hw hc hl' ?_
                            intro c' hc'
                            have hcc : c0 = c' := by simpa [targetOf] using hc'
                            subst hcc
                            rw [hrw]
                            simp
                          · -- live child: adopt the parent's reason and notify
                            rename_i hrr
                            split at hE
                            · rename_i p hpp
                              have hpx : x = p := by
                                have h1 := World.parentOf_eq_of_ctx? hcc0
                                rw [hpp] at h1
                                rw [shiftW_parentOf, hc0.2] at h1
                                exact Option.some.inj h1
                              subst hpx
                              cases k2 with
                              | zero => simp [errorF] at hE
                              | succ k3 =>
                                have hW1x : (shiftW w x).reasonOf x = some r := by
                                  rw [shiftW_reasonOf]; exact hxr
                                have hEx := errorF_of_reasonSome (n := k3) hW1x
                                split at hE
                                · rename_i heqq
                                  rw [hEx] at heqq
                                  cases heqq
                                · rename_i w1x presx pescx heqq
                                  rw [hEx] at heqq
                                  obtain ⟨he1, he2, he3⟩ := someTripleEq heqq
                                  subst he1; subst he2; subst he3
                                  have hE2 : (match notifyF (k3 + 1)
                                      (setReasonW (shiftW w x) c0 (some r)) c0 with
                                    | none => none
                                    | some (w3, esc) =>
                                      some (w3, w3.reasonOf c0, esc)) = some (w1e, res1, esc1) :=
                                    hE
                                  split at hE2
                                  · exact absurd hE2 (by simp)
                                  · rename_i w3 esc3 hN
                                    obtain ⟨he1, he2, he3⟩ := someTripleEq hE2
                                    subst he1; subst he2; subst he3
                                    have hwW2 : wfW (setReasonW (shiftW w x) c0 (some r)) :=
                                      wf_shift_set hw hc hl' r
                                    have hW2c0 : (setReasonW (shiftW w x) c0 (some r)).reasonOf c0 =
                                        some r := setReasonW_reasonOf_self (some r) hcc0
                                    obtain ⟨hE3, hL3⟩ := (ih (k3 + 1) (by omega)).1
                                      (setReasonW (shiftW w x) c0 (some r)) c0 r (w3, esc3)
                                      hwW2 hW2c0 hN
                                    have hres : w3.reasonOf c0 = some r := hE3.mono c0 r hW2c0
                                    -- the `cancel` wrapper sees a settled reason and stops
                                    have hw2w3 : w2 = w3 := by
                                      cases hesc : esc3 with
                                      | some t =>
                                        rw [hesc] at hI
                                        have hI2 : some (w3, (some t : Option Thrown)) =
                                            some (w2, thrown) := hI
                                        exact (somePairEq hI2).1.symm
                                      | none =>
                                        rw [hesc] at hI
                                        rw [hres] at hI
                                        have hI2 : some (w3, (none : Option Thrown)) =
                                            some (w2, thrown) := hI
                                        exact (somePairEq hI2).1.symm
                                    subst hw2w3
                                    -- assemble the bundle from w to w3
                                    have hrw0 : w.reasonOf c0 = none := by
                                      have h1 := World.reasonOf_eq_of_ctx? hcc0
                                      rw [hrr] at h1
                                      rw [shiftW_reasonOf] at h1
                                      exact h1
                                    have hW2r : ∀ j, j ≠ c0 →
                                        (setReasonW (shiftW w x) c0 (some r)).reasonOf j =
                                        w.reasonOf j := by
                                      intro j hj
                                      rw [setReasonW_reasonOf_ne _ _ (fun he => hj he.symm),
                                        shiftW_reasonOf]
                                    have hW2L : ∀ j,
                                        (setReasonW (shiftW w x) c0 (some r)).listenersOf j =
                                        (shiftW w x).listenersOf j :=
                                      setReasonW_listenersOf _ _ _
                                    refine ⟨hE3.wf, ?_, ?_, ?_, ?_, ?_, ?_⟩
                                    · intro i r0 hi
                                      by_cases hic : i = c0
                                      · subst hic; rw [hrw0] at hi; cases hi
                                      · exact hE3.mono i r0 (by rw [hW2r i hic]; exact hi)
                                    · intro i hi
                                      by_cases hic : i = c0
                                      · subst hic
                                        exact Or.inr hres
                                      · exact hE3.newr i (by rw [hW2r i hic]; exact hi)
                                    · intro i hi h3
                                      by_cases hic : i = c0
                                      · subst hic; exact hL3
                                      · exact hE3.drained i (by rw [hW2r i hic]; exact hi) h3
                                    · intro i
                                      have hs := hE3.shrink i
                                      rw [hW2L i] at hs
                                      exact hs.trans (shiftW_listenersOf_sublist w x i)
                                    · exact (skel_modify_listeners w x _).trans
                                        ((skel_modify_reason (shiftW w x) c0 _).trans hE3.skel)
                                    · refine hE3.reasonsEq.trans ?_
                                      simp [setReasonW, shiftW]
                            · rename_i hpp
                              exfalso
                              have h1 := World.parentOf_eq_of_ctx? hcc0
                              rw [hpp] at h1
                              rw [shiftW_parentOf, hc0.2] at h1
                              cases h1
            -- continue with the rest of the loop
            obtain ⟨hE4, hL4⟩ := (ih m hmlt).2 w2 x r _ res hEw2.wf (hEw2.mono x r hxr) h
            exact ⟨hEw2.comp hE4, hL4⟩

/-- Storing a reason on a context (with lists untouched) preserves the
wiring invariants. -/
theorem wf_setReasonW_some {w : World} (i r : Nat) (hw : wfW w) :
    wfW (setReasonW w i (some r)) := by
  obtain ⟨hA, hC, hD⟩ := hw
  have hlen : (setReasonW w i (some r)).ctxs.length = w.ctxs.length := setReasonW_len w i _
  have hpar : ∀ j, (setReasonW w i (some r)).parentOf j = w.parentOf j :=
    setReasonW_parentOf w i _
  have hlst : ∀ j, (setReasonW w i (some r)).listenersOf j = w.listenersOf j :=
    setReasonW_listenersOf w i _
  refine ⟨wfLinks_shrink hA hlen hpar (fun j => by rw [hlst j]), ?_,
    wfDisp_shrink hD hlen (fun j => by rw [hlst j])⟩
  intro c' hc' p hp hr
  rw [hlen] at hc'
  rw [hpar] at hp
  have hrr : w.reasonOf c' = none := by
    by_cases hic : i = c'
    · subst hic
      cases hcx : w.ctx? i with
      | none =>
        unfold World.reasonOf
        rw [hcx]
        rfl
      | some cc => rw [setReasonW_reasonOf_self (some r) hcx] at hr; cases hr
    · rw [setReasonW_reasonOf_ne _ _ hic] at hr; exact hr
  obtain ⟨wr, hm, hf⟩ := hC c' hc' p hp hrr
  exact ⟨wr, by rw [hlst]; exact hm, hf⟩

/-- C1: cancelling a context with a reason reference propagates that very
reference to every uncancelled descendant chain, synchronously: after the
cancel call returns, each descendant stores the same reason reference
`rid`, and its next `error()` call returns it. -/
theorem claim_C1_cancel_propagates_reference (n : Nat) (w : World) (p rid : Nat)
    (res : World × Option Thrown) (l : List Nat)
    (hw : wfW w) (hp : p < w.ctxs.length)
    (herr : errorF n w p = some (w, none, none))
    (hcan : cancelF (n + 1) w p rid = some res)
    (hch : isChain w p l) :
    res.1.reasonOf p = some rid ∧
    ∀ c ∈ l, res.1.reasonOf c = some rid ∧
      ∀ m, errorF (m + 1) res.1 c = some (res.1, some rid, none) := by
  rw [cancelF, herr] at hcan
  have hcan' : notifyF n (setReasonW w p (some rid)) p = some res := hcan
  obtain ⟨cp, hcp⟩ := World.exists_ctx?_of_lt hp
  have hwW2 : wfW (setReasonW w p (some rid)) := wf_setReasonW_some p rid hw
  have hW2p : (setReasonW w p (some rid)).reasonOf p = some rid :=
    setReasonW_reasonOf_self (some rid) hcp
  obtain ⟨hE, hLp⟩ := (execBundle n).1 (setReasonW w p (some rid)) p rid res hwW2 hW2p hcan'
  have hpr : res.1.reasonOf p = some rid := hE.mono p rid hW2p
  have hlen : res.1.ctxs.length = w.ctxs.length := by
    rw [hE.skel.len, setReasonW_len]
  have hparf : ∀ j, res.1.parentOf j = w.parentOf j := by
    intro j
    rw [hE.skel.parentOf, setReasonW_parentOf]
  have main : ∀ (l' : List Nat) (x : Nat), isChain w x l' →
      res.1.reasonOf x = some rid → res.1.listenersOf x = [] →
      ∀ c ∈ l', res.1.reasonOf c = some rid ∧ res.1.listenersOf c = [] := by
    intro l'
    induction l' with
    | nil => intro x _ _ _ c hc; cases hc
    | cons c0 cs ihl =>
      intro x hch2 hxr hxl
      obtain ⟨hpar, hrn, hlt, hch3⟩ := hch2
      have hcr : res.1.reasonOf c0 = some rid := by
        by_cases hc0p : c0 = p
        · subst hc0p; exact hpr
        · have hrnW2 : (setReasonW w p (some rid)).reasonOf c0 = none := by
            rw [setReasonW_reasonOf_ne _ _ (fun he => hc0p he.symm)]
            exact hrn
          rcases hE.newr c0 hrnW2 with hnone | hsome
          · exfalso
            have hC := hE.wf.2.1
            have hpar' : res.1.parentOf c0 = some x := by rw [hparf]; exact hpar
            obtain ⟨wr, hm, _⟩ := hC c0 (by rw [hlen]; exact hlt) x hpar' hnone
            rw [hxl] at hm
            cases hm
          · exact hsome
      have hcl : res.1.listenersOf c0 = [] := by
        by_cases hc0p : c0 = p
        · subst hc0p; exact hLp
        · have hrnW2 : (setReasonW w p (some rid)).reasonOf c0 = none := by
            rw [setReasonW_reasonOf_ne _ _ (fun he => hc0p he.symm)]
            exact hrn
          exact hE.drained c0 hrnW2 hcr
      intro c hc
      rcases List.mem_cons.mp hc with h1 | h1
      · subst h1; exact ⟨hcr, hcl⟩
      · exact ihl c0 hch3 hcr hcl c h1
  refine ⟨hpr, fun c hc => ?_⟩
  obtain ⟨h1, _⟩ := main l p hch hpr hLp c hc
  exact ⟨h1, fun m => errorF_of_reasonSome m h1⟩

theorem claim_C1_witness :
    (wfW wC1r ∧ 1 < wC1r.ctxs.length ∧ errorF 19 wC1r 1 = some (wC1r, none, none) ∧
      cancelF 20 wC1r 1 0 = some resC1 ∧ isChain wC1r 1 [2]) ∧
    (resC1.1.reasonOf 1 = some 0 ∧
      ∀ c ∈ [2], resC1.1.reasonOf c = some 0 ∧
        ∀ m, errorF (m + 1) resC1.1 c = some (resC1.1, some 0, none)) :=
  ⟨⟨by decide, by decide, by rfl, by rfl, by decide⟩,
    claim_C1_cancel_propagates_reference 19 wC1r 1 0 resC1 [2] (by decide) (by decide) (by rfl)
      (by rfl) (by decide)⟩

/-- C3: once a context's `cancellation_reason` is stored it never changes:
every later `error()` call returns the identical reason reference without
touching the world, and every later `cancel` call is a no-op that keeps
the first reason. -/
theorem claim_C3_reason_immutable (w : World) (cid r rid n m : Nat)
    (h : w.reasonOf cid = some r) :
    errorF (n + 1) w cid = some (w, some r, none) ∧
    cancelF (m + 2) w cid rid = some (w, none) :=
  ⟨errorF_of_reasonSome n h, cancelF_of_reasonSome m rid h⟩

theorem claim_C3_witness :
    resC1.1.reasonOf 1 = some 0 ∧
    (errorF 3 resC1.1 1 = some (resC1.1, some 0, none) ∧
      cancelF 4 resC1.1 1 7 = some (resC1.1, none)) :=
  ⟨by rfl, claim_C3_reason_immutable resC1.1 1 0 7 2 2 (by rfl)⟩

/-- The deadline tail of `error()` on an expired deadline: allocates a
fresh `DeadlineExceededError` (the next reason reference), stores it,
drains the listeners, and returns it. -/
theorem errorDeadlineF_spec (m : Nat) (w : World) (cid : Nat) (d : Int)
    (res : World × Option Nat × Option Thrown)
    (hw : wfW w) (hlt : cid < w.ctxs.length) (ht : d ≤ w.time)
    (he : errorDeadlineF m w (some d) cid = some res) :
    res.2.1 = some w.reasons.length ∧
    res.1.reasonOf cid = some w.reasons.length ∧
    res.1.reasons = w.reasons ++ [Reason.deadlineExceeded] ∧
    res.1.listenersOf cid = [] := by
  cases m with
  | zero => rw [errorDeadlineF] at he; exact absurd he (by simp)
  | succ k =>
    rw [errorDeadlineF, if_pos ht] at he
    split at he
    · exact absurd he (by simp)
    · rename_i w3 esc hN
      have hwWD : wfW ({ w with reasons := w.reasons ++ [Reason.deadlineExceeded] } : World) :=
        wf_of_ctxs_eq rfl hw
      have hwW2 : wfW (setReasonW { w with reasons := w.reasons ++ [Reason.deadlineExceeded] }
          cid (some w.reasons.length)) := wf_setReasonW_some _ _ hwWD
      obtain ⟨c, hcx⟩ := World.exists_ctx?_of_lt
        (w := { w with reasons := w.reasons ++ [Reason.deadlineExceeded] }) hlt
      have hW2c : (setReasonW { w with reasons := w.reasons ++ [Reason.deadlineExceeded] }
          cid (some w.reasons.length)).reasonOf cid = some w.reasons.length :=
        setReasonW_reasonOf_self _ hcx
      obtain ⟨hE, hL⟩ := (execBundle k).1 _ cid w.reasons.length (w3, esc) hwW2 hW2c hN
      cases he
      refine ⟨hE.mono cid _ hW2c, hE.mono cid _ hW2c, ?_, hL⟩
      rw [hE.reasonsEq]
      simp [setReasonW]

/-- C2: a context with no stored reason whose deadline has passed, and
whose parent chain reports no reason ("Else if" in the contract), observes
the deadline lazily on `error()`: a fresh `DeadlineExceededError` is
allocated, stored, the listeners are drained immediately, and the fresh
reference is returned — no timer involved. -/
theorem claim_C2_lazy_deadline_observation (n : Nat) (w : World) (cid : Nat) (c : Ctx) (d : Int)
    (res : World × Option Nat × Option Thrown)
    (hw : wfW w) (hc : w.ctx? cid = some c) (hr : c.cancellationReason = none)
    (hd : c.deadlineAt = some d) (ht : d ≤ w.time)
    (hp : ∀ p, c.parent = some p → errorF n w p = some (w, none, none))
    (he : errorF (n + 1) w cid = some res) :
    res.2.1 = some w.reasons.length ∧
    res.1.reasonOf cid = some w.reasons.length ∧
    res.1.reasons = w.reasons ++ [Reason.deadlineExceeded] ∧
    res.1.listenersOf cid = [] := by
  rw [errorF] at he
  split at he
  · rename_i hn
    rw [hc] at hn
    cases hn
  · rename_i c' hc'
    have hce : c = c' := by
      rw [hc] at hc'
      exact Option.some.inj hc'
    subst hce
    split at he
    · rename_i r0 hr0
      rw [hr] at hr0
      cases hr0
    · split at he
      · rename_i p hpp
        have hpe := hp p hpp
        split at he
        · rename_i heq
          rw [hpe] at heq
          cases heq
        · rename_i w1 pres pesc heq
          rw [hpe] at heq
          obtain ⟨e1, e2, e3⟩ := someTripleEq heq
          subst e1; subst e2; subst e3
          have he2 : errorDeadlineF n w c.deadlineAt cid = some res := he
          rw [hd] at he2
          exact errorDeadlineF_spec n w cid d res hw (World.lt_of_ctx?_eq_some hc) ht he2
      · have he2 : errorDeadlineF n w c.deadlineAt cid = some res := he
        rw [hd] at he2
        exact errorDeadlineF_spec n w cid d res hw (World.lt_of_ctx?_eq_some hc) ht he2

theorem claim_C2_witness :
    (wfW wC2 ∧ wC2.ctx? 1 = some cC2 ∧ cC2.cancellationReason = none ∧
      cC2.deadlineAt = some 5 ∧ (5 : Int) ≤ wC2.time ∧
      errorF 20 wC2 1 = some resC2) ∧
    (resC2.2.1 = some wC2.reasons.length ∧
      resC2.1.reasonOf 1 = some wC2.reasons.length ∧
      resC2.1.reasons = wC2.reasons ++ [Reason.deadlineExceeded] ∧
      resC2.1.listenersOf 1 = []) :=
  ⟨⟨by decide, by rfl, by rfl, by rfl, by decide, by rfl⟩,
    claim_C2_lazy_deadline_observation 19 wC2 1 cC2 5 resC2 (by decide) (by rfl) (by rfl)
      (by rfl) (by decide)
      (by
        intro p hpe
        have h0 : (some 0 : Option Nat) = some p := hpe
        cases h0
        rfl)
      (by rfl)⟩

/-- C4 as stated is false: context 2 (created by `withCancel` under a
deadline-carrying parent) has no stored `cancellation_reason`, yet invoking
its cancel function with the message `"boom"` leaves it with a freshly
observed `DeadlineExceededError` (reason 1), not a `CancelledError` built
from the argument — `cancel` consults `error()`, which lazily observes the
expired inherited deadline first. -/
theorem claim_C4_counterexample :
    wC4.reasonOf 2 = none ∧
    cancelCallF 30 wC4 2 (.msg "boom") = some resC4 ∧
    resC4.1.reasonOf 2 = some 1 ∧
    resC4.1.reasons[1]? = some Reason.deadlineExceeded ∧
    resC4.1.reasons[1]? ≠ some (Reason.cancelled "boom" none) :=
  ⟨by decide, by rfl, by decide, by decide, by decide⟩

/-- C4 amended: when `error()` reports no reason (none stored, none
inherited, no expired deadline), the cancel function stores a freshly
allocated `CancelledError` built from its argument — a string argument
becomes the message, an `Error` argument is kept, by reference, as the
cause. -/
theorem claim_C4_amended_cancel_arg (n : Nat) (w : World) (cid : Nat) (arg : CancelArg)
    (res : World × Option Thrown)
    (hw : wfW w) (hcid : cid < w.ctxs.length)
    (herr : errorF n (w.allocReason (argReason arg)).1 cid =
      some ((w.allocReason (argReason arg)).1, none, none))
    (hc : cancelCallF (n + 1) w cid arg = some res) :
    res.1.reasonOf cid = some w.reasons.length ∧
    res.1.reasons[w.reasons.length]? = some (argReason arg) := by
  unfold cancelCallF at hc
  rw [cancelF, herr] at hc
  have hc2 : notifyF n (setReasonW (w.allocReason (argReason arg)).1 cid
      (some (w.allocReason (argReason arg)).2)) cid = some res := hc
  have hw1 : wfW (w.allocReason (argReason arg)).1 := wf_of_ctxs_eq rfl hw
  have hwW2 : wfW (setReasonW (w.allocReason (argReason arg)).1 cid
      (some (w.allocReason (argReason arg)).2)) := wf_setReasonW_some _ _ hw1
  obtain ⟨c, hcx⟩ := World.exists_ctx?_of_lt (w := (w.allocReason (argReason arg)).1) hcid
  have hW2c : (setReasonW (w.allocReason (argReason arg)).1 cid
      (some (w.allocReason (argReason arg)).2)).reasonOf cid =
      some (w.allocReason (argReason arg)).2 := setReasonW_reasonOf_self _ hcx
  obtain ⟨hE, hL⟩ := (execBundle n).1 _ cid (w.allocReason (argReason arg)).2 res hwW2 hW2c hc2
  refine ⟨hE.mono cid _ hW2c, ?_⟩
  have hre : res.1.reasons = w.reasons ++ [argReason arg] := by
    rw [hE.reasonsEq]
    simp [setReasonW, World.allocReason]
  rw [hre]
  simp

theorem claim_C4_amended_witness :
    (wfW wC1a ∧ 1 < wC1a.ctxs.length ∧
      errorF 19 (wC1a.allocReason (argReason (.err 42))).1 1 =
        some ((wC1a.allocReason (argReason (.err 42))).1, none, none) ∧
      cancelCallF 20 wC1a 1 (.err 42) = some resC4w) ∧
    (resC4w.1.reasonOf 1 = some wC1a.reasons.length ∧
      resC4w.1.reasons[wC1a.reasons.length]? = some (argReason (.err 42))) :=
  ⟨⟨by decide, by decide, by rfl, by rfl⟩,
    claim_C4_amended_cancel_arg 19 wC1a 1 (.err 42) resC4w (by decide) (by decide) (by rfl)
      (by rfl)⟩

theorem pushW_ctx?_self (w : World) (x : Nat) (wr : Wrapper) :
    (pushW w x wr).ctx? x = (w.ctx? x).map (fun c => { c with listeners := c.listeners ++ [wr] }) :=
  World.ctx?_modifyCtx_self w x _

theorem pushW_ctx?_ne (w : World) (x : Nat) (wr : Wrapper) {j : Nat} (h : x ≠ j) :
    (pushW w x wr).ctx? j = w.ctx? j :=
  World.ctx?_modifyCtx_ne w x _ j h

theorem pushW_deadlineOf (w : World) (x : Nat) (wr : Wrapper) (i : Nat) :
    (pushW w x wr).deadlineOf i = w.deadlineOf i := by
  unfold World.deadlineOf
  by_cases hxi : x = i
  · subst hxi
    rw [pushW_ctx?_self]
    cases w.ctx? x <;> rfl
  · rw [pushW_ctx?_ne w x wr hxi]

theorem pushW_reasonOf (w : World) (x : Nat) (wr : Wrapper) (i : Nat) :
    (pushW w x wr).reasonOf i = w.reasonOf i :=
  World.reasonOf_modifyCtx_pres (f := fun c => { c with listeners := c.listeners ++ [wr] })
    (fun _ => rfl) w x i

theorem pushW_listenersOf_self {w : World} {x : Nat} {c : Ctx} (wr : Wrapper)
    (hc : w.ctx? x = some c) :
    (pushW w x wr).listenersOf x = c.listeners ++ [wr] :=
  World.listenersOf_modifyCtx_self _ hc

theorem pushW_timers (w : World) (x : Nat) (wr : Wrapper) : (pushW w x wr).timers = w.timers := by
  simp [pushW]

theorem pushW_len (w : World) (x : Nat) (wr : Wrapper) :
    (pushW w x wr).ctxs.length = w.ctxs.length :=
  World.length_modifyCtx w x _

/-- Registration path of `onDidCancel` on an uncancelled context. -/
theorem onDidCancelF_live {w : World} {cid : Nat} {c : Ctx} (n : Nat) (fn : LFn)
    (hc : w.ctx? cid = some c) (hr : c.cancellationReason = none) :
    onDidCancelF n w cid fn =
      some (pushW { w with nextWid := w.nextWid + 1 } cid ⟨w.nextWid, fn⟩,
        .lst cid w.nextWid, none) := by
  unfold onDidCancelF
  rw [hc]
  simp [hr, pushW]

theorem appendCtx_ctx?_new (w : World) (c : Ctx) : (appendCtx w c).ctx? w.ctxs.length = some c := by
  unfold appendCtx World.ctx?
  simp

theorem appendCtx_ctx?_old (w : World) (c : Ctx) {i : Nat} (h : i < w.ctxs.length) :
    (appendCtx w c).ctx? i = w.ctx? i := by
  unfold appendCtx World.ctx?
  simp only
  rw [List.getElem?_append, if_pos h]

/-- Constructor on a live parent with no initial reason: append the node,
register the propagation wrapper on the parent, register the unsubscribe
wrapper on the child. -/
theorem newCtxF_live {w : World} {p : Nat} {pc : Ctx} (n : Nat) (opts : CtxOpts)
    (hparent : opts.parent = some p) (hpc : w.ctx? p = some pc)
    (hpr : pc.cancellationReason = none) (hcr : opts.cancellationReason = none) :
    newCtxF n w opts = some
      (pushW
        (withNextWid
          (pushW (withNextWid (appendCtx w (newborn opts)) (w.nextWid + 1)) p
            ⟨w.nextWid, .cancelChild w.ctxs.length⟩)
          (w.nextWid + 2))
        w.ctxs.length ⟨w.nextWid + 1, .disposeH (.lst p w.nextWid)⟩,
       w.ctxs.length, none) := by
  have hplt : p < w.ctxs.length := World.lt_of_ctx?_eq_some hpc
  unfold newCtxF
  rw [hparent]
  show (match onDidCancelF n (appendCtx w (newborn opts)) p (LFn.cancelChild w.ctxs.length) with
    | none => none
    | some (w2, d, esc1) =>
      match esc1 with
      | some t => some (w2, w.ctxs.length, some t)
      | none =>
        match onDidCancelF n w2 w.ctxs.length (LFn.disposeH d) with
        | none => none
        | some (w3, _, esc2) => some (w3, w.ctxs.length, esc2)) = _
  have hA : (appendCtx w (newborn opts)).ctx? p = some pc := by
    rw [appendCtx_ctx?_old w _ hplt]
    exact hpc
  rw [onDidCancelF_live n _ hA hpr]
  show (match onDidCancelF n (pushW (withNextWid (appendCtx w (newborn opts)) (w.nextWid + 1)) p
      ⟨w.nextWid, .cancelChild w.ctxs.length⟩) w.ctxs.length
      (LFn.disposeH (.lst p w.nextWid)) with
    | none => none
    | some (w3, _, esc2) => some (w3, w.ctxs.length, esc2)) = _
  have hB : (pushW (withNextWid (appendCtx w (newborn opts)) (w.nextWid + 1)) p
      ⟨w.nextWid, .cancelChild w.ctxs.length⟩).ctx? w.ctxs.length = some (newborn opts) := by
    rw [pushW_ctx?_ne _ _ _ (Nat.ne_of_lt hplt)]
    exact appendCtx_ctx?_new w (newborn opts)
  have hcr' : (newborn opts).cancellationReason = none := hcr
  have hstep := onDidCancelF_live (w := pushW (withNextWid (appendCtx w (newborn opts))
      (w.nextWid + 1)) p ⟨w.nextWid, .cancelChild w.ctxs.length⟩) n
      (LFn.disposeH (.lst p w.nextWid)) hB hcr'
  rw [hstep]
  simp [pushW, withNextWid]

theorem withNextWid_ctx? (w : World) (k i : Nat) : (withNextWid w k).ctx? i = w.ctx? i := rfl

theorem withNextWid_timers (w : World) (k : Nat) : (withNextWid w k).timers = w.timers := rfl

theorem appendTimer_ctx? (w : World) (t : Timer) (i : Nat) : (appendTimer w t).ctx? i = w.ctx? i :=
  rfl

theorem appendTimer_timers (w : World) (t : Timer) : (appendTimer w t).timers = w.timers ++ [t] :=
  rfl

theorem appendCtx_timers (w : World) (c : Ctx) : (appendCtx w c).timers = w.timers := rfl

theorem dlW2_timers (w : World) (pid : Nat) (epoch : Int) :
    (dlW2 w pid epoch).timers = w.timers := by
  unfold dlW2
  rw [pushW_timers, withNextWid_timers, pushW_timers, withNextWid_timers, appendCtx_timers]

theorem dlW2_ctx?_parent {w : World} {pid : Nat} {pc : Ctx} (epoch : Int)
    (hpc : w.ctx? pid = some pc) (hlt : pid < w.ctxs.length) :
    (dlW2 w pid epoch).ctx? pid =
      some { pc with listeners := pc.listeners ++ [⟨w.nextWid, .cancelChild w.ctxs.length⟩] } := by
  unfold dlW2
  rw [pushW_ctx?_ne _ _ _ (Nat.ne_of_lt hlt).symm, withNextWid_ctx?, pushW_ctx?_self,
    withNextWid_ctx?, appendCtx_ctx?_old w _ hlt, hpc]
  rfl

theorem dlW2_ctx?_child (w : World) (pid : Nat) (epoch : Int) (hlt : pid < w.ctxs.length) :
    (dlW2 w pid epoch).ctx? w.ctxs.length =
      some { newborn (dlOpts w pid epoch) with
        listeners := [⟨w.nextWid + 1, .disposeH (.lst pid w.nextWid)⟩] } := by
  unfold dlW2
  rw [pushW_ctx?_self, withNextWid_ctx?, pushW_ctx?_ne _ _ _ (Nat.ne_of_lt hlt),
    withNextWid_ctx?, appendCtx_ctx?_new]
  rfl

theorem dlW2_deadlineOf_child (w : World) (pid : Nat) (epoch : Int) (hlt : pid < w.ctxs.length) :
    (dlW2 w pid epoch).deadlineOf w.ctxs.length = some (effDeadline (w.deadlineOf pid) epoch) := by
  unfold World.deadlineOf
  rw [dlW2_ctx?_child w pid epoch hlt]
  rfl

/-- Symbolic evaluation of `withDeadline` on a live parent whose `error()`
reports nothing. -/
theorem withDeadlineF_live {w : World} {pid : Nat} {pc : Ctx} (n : Nat) (epoch : Int)
    (now? : Option Int) (hpc : w.ctx? pid = some pc) (hpr : pc.cancellationReason = none)
    (herr : errorF n w pid = some (w, none, none)) :
    withDeadlineF n w pid epoch now? = dlRes n w pid epoch now? := by
  unfold withDeadlineF
  rw [herr]
  show (match newCtxF n w (dlOpts w pid epoch) with
    | none => none
    | some (w2, cid, esc1) =>
      match esc1 with
      | some t => some (w2, cid, some t)
      | none =>
        if newTimerCond (w.deadlineOf pid) epoch then
          match onDidCancelF n
            (appendTimer w2
              { fireAt := w2.time + (effDeadline (w.deadlineOf pid) epoch - now?.getD w2.time),
                childId := cid, disposed := false, fired := false })
            pid (.disposeH (.tmr w2.timers.length)) with
          | none => none
          | some (w4, _, esc2) => some (w4, cid, esc2)
        else some (w2, cid, none)) = _
  rw [newCtxF_live n (dlOpts w pid epoch) rfl hpc hpr rfl]
  rfl

/-- C5 as stated is false: context 1 has the (set) deadline `0`; calling
`withDeadline(ctx1, 5)` gives the child the effective deadline `5`, not
`min(0, 5) = 0` — `parentDeadlineAt ? … : epochTimeMs` treats the falsy
deadline `0` as absent — and a host timer IS scheduled (the timer list
grows) although the effective deadline (5) is not strictly sooner than the
parent's (0). -/
theorem claim_C5_counterexample :
    wC5a.deadlineOf 1 = some 0 ∧
    wC5a.reasonOf 1 = none ∧
    withDeadlineF 30 wC5a 1 5 none = some resC5 ∧
    resC5.2.1 = 2 ∧
    resC5.1.deadlineOf 2 = some 5 ∧
    (some (5 : Int) ≠ some (min (0 : Int) 5)) ∧
    wC5a.timers.length = 1 ∧
    resC5.1.timers.length = 2 :=
  ⟨by decide, by rfl, by rfl, by rfl, by decide, by decide, by decide, by decide⟩

/-- C5 amended: for a live parent whose `error()` reports nothing,
`withDeadline(parent, epoch)` gives the child the effective deadline
`effDeadline parentDeadline epoch`, which is `min(d, epoch)` when the
parent's deadline `d` is set and nonzero, and `epoch` when it is absent (a
deadline of `0` counts as absent); a host timer is appended exactly when
`newTimerCond` holds, which for a nonzero set parent deadline `d` is
`min d epoch < d` — strictly sooner — and otherwise always. -/
theorem claim_C5_amended_effective_deadline (n : Nat) (w : World) (pid : Nat) (pc : Ctx)
    (epoch : Int) (now? : Option Int) (res : World × Nat × Option Thrown)
    (hpc : w.ctx? pid = some pc) (hpr : pc.cancellationReason = none)
    (herr : errorF n w pid = some (w, none, none))
    (h : withDeadlineF n w pid epoch now? = some res) :
    res.2.1 = w.ctxs.length ∧
    res.1.deadlineOf w.ctxs.length = some (effDeadline (w.deadlineOf pid) epoch) ∧
    (∀ d, w.deadlineOf pid = some d → d ≠ 0 →
      effDeadline (w.deadlineOf pid) epoch = min d epoch ∧
      (newTimerCond (w.deadlineOf pid) epoch = true ↔ min d epoch < d)) ∧
    (w.deadlineOf pid = none →
      effDeadline (w.deadlineOf pid) epoch = epoch ∧
      newTimerCond (w.deadlineOf pid) epoch = true) ∧
    (newTimerCond (w.deadlineOf pid) epoch = true →
      res.1.timers = w.timers ++ [dlTimer w pid epoch now?]) ∧
    (newTimerCond (w.deadlineOf pid) epoch = false → res.1.timers = w.timers) := by
  have hlt : pid < w.ctxs.length := World.lt_of_ctx?_eq_some hpc
  rw [withDeadlineF_live n epoch now? hpc hpr herr] at h
  unfold dlRes at h
  have harith1 : ∀ d : Int, w.deadlineOf pid = some d → d ≠ 0 →
      effDeadline (w.deadlineOf pid) epoch = min d epoch ∧
      (newTimerCond (w.deadlineOf pid) epoch = true ↔ min d epoch < d) := by
    intro d hd h0
    rw [hd]
    refine ⟨by simp [effDeadline, h0], ?_⟩
    simp [newTimerCond, effDeadline, h0]
  have harith2 : w.deadlineOf pid = none →
      effDeadline (w.deadlineOf pid) epoch = epoch ∧
      newTimerCond (w.deadlineOf pid) epoch = true := by
    intro hd
    rw [hd]
    exact ⟨rfl, rfl⟩
  rcases Bool.eq_false_or_eq_true (newTimerCond (w.deadlineOf pid) epoch) with hcond | hcond
  · rw [if_pos hcond] at h
    have hA : (appendTimer (dlW2 w pid epoch) (dlTimer w pid epoch now?)).ctx? pid =
        some { pc with listeners := pc.listeners ++ [⟨w.nextWid, .cancelChild w.ctxs.length⟩] } := by
      rw [appendTimer_ctx?]
      exact dlW2_ctx?_parent epoch hpc hlt
    rw [onDidCancelF_live n (.disposeH (.tmr (dlW2 w pid epoch).timers.length)) hA hpr] at h
    have hres := Option.some.inj h
    subst hres
    refine ⟨rfl, ?_, harith1, harith2, ?_, ?_⟩
    · rw [pushW_deadlineOf]
      exact dlW2_deadlineOf_child w pid epoch hlt
    · intro _
      rw [pushW_timers]
      show (appendTimer (dlW2 w pid epoch) (dlTimer w pid epoch now?)).timers = _
      rw [appendTimer_timers, dlW2_timers]
    · intro habs
      rw [hcond] at habs
      cases habs
  · rw [if_neg (by simp [hcond])] at h
    have hres : (dlW2 w pid epoch, w.ctxs.length, (none : Option Thrown)) = res :=
      Option.some.inj h
    subst hres
    refine ⟨rfl, dlW2_deadlineOf_child w pid epoch hlt, harith1, harith2, ?_, ?_⟩
    · intro habs
      rw [hcond] at habs
      cases habs
    · intro _
      exact dlW2_timers w pid epoch

theorem claim_C5_witness :
    (wC2a.ctx? 1 = some cC5w ∧ cC5w.cancellationReason = none ∧
      errorF 19 wC2a 1 = some (wC2a, none, none) ∧
      withDeadlineF 19 wC2a 1 7 none = some resC5w) ∧
    (resC5w.2.1 = wC2a.ctxs.length ∧
      resC5w.1.deadlineOf wC2a.ctxs.length = some (effDeadline (wC2a.deadlineOf 1) 7) ∧
      (∀ d, wC2a.deadlineOf 1 = some d → d ≠ 0 →
        effDeadline (wC2a.deadlineOf 1) 7 = min d 7 ∧
        (newTimerCond (wC2a.deadlineOf 1) 7 = true ↔ min d 7 < d)) ∧
      (wC2a.deadlineOf 1 = none →
        effDeadline (wC2a.deadlineOf 1) 7 = 7 ∧ newTimerCond (wC2a.deadlineOf 1) 7 = true) ∧
      (newTimerCond (wC2a.deadlineOf 1) 7 = true →
        resC5w.1.timers = wC2a.timers ++ [dlTimer wC2a 1 7 none]) ∧
      (newTimerCond (wC2a.deadlineOf 1) 7 = false → resC5w.1.timers = wC2a.timers)) :=
  ⟨⟨by rfl, by rfl, by rfl, by rfl⟩,
    claim_C5_amended_effective_deadline 19 wC2a 1 cC5w 7 none resC5w (by rfl) (by rfl) (by rfl)
      (by rfl)⟩

theorem pushW_nextWid (w : World) (x : Nat) (wr : Wrapper) : (pushW w x wr).nextWid = w.nextWid := by
  unfold pushW World.modifyCtx
  split <;> rfl

theorem dlW2_nextWid (w : World) (pid : Nat) (epoch : Int) :
    (dlW2 w pid epoch).nextWid = w.nextWid + 2 := by
  unfold dlW2
  rw [pushW_nextWid]
  rfl

/-- Disposing a live timer handle flips its `disposed` flag. -/
theorem disposeHandleF_tmr_set {w : World} {tid : Nat} {t : Timer}
    (h : w.timers[tid]? = some t) :
    (disposeHandleF w (.tmr tid)).timers[tid]? = some { t with disposed := true } := by
  show (match w.timers[tid]? with
    | some u => { w with timers := w.timers.set tid { u with disposed := true } }
    | none => w).timers[tid]? = _
  rw [h]
  show (w.timers.set tid { t with disposed := true })[tid]? = _
  have hlt : tid < w.timers.length := by
    by_contra hge
    rw [List.getElem?_eq_none (Nat.le_of_not_lt hge)] at h
    cases h
  rw [List.getElem?_set]
  simp [hlt]

/-- C6 as stated is false: the timer's dispose handle is registered on the
PARENT (`ctx.onDidCancel(dispose)` where `ctx` is the parent), so
cancelling the child explicitly via its cancel function — parent still
uncancelled — leaves the pending deadline timer undisposed: after the
cancel, the child carries a Cancelled reason, the parent has none, and the
timer's `disposed` flag is still `false` (the dispose wrapper still sits
in the parent's listener list). -/
theorem claim_C6_counterexample :
    wC6a.timers = [{ fireAt := 100, childId := 1, disposed := false, fired := false }] ∧
    wC6a.reasonOf 0 = none ∧
    cancelCallF 30 wC6a 1 .noArg = some resC6 ∧
    resC6.1.reasonOf 1 = some 0 ∧
    resC6.1.reasonOf 0 = none ∧
    resC6.1.timers = [{ fireAt := 100, childId := 1, disposed := false, fired := false }] ∧
    resC6.1.listenersOf 0 = [⟨2, .disposeH (.tmr 0)⟩] :=
  ⟨by rfl, by rfl, by rfl, by rfl, by rfl, by rfl, by rfl⟩

/-- C6 amended: when `withDeadline` schedules a timer on a live parent, the
fresh timer (index `w.timers.length`, `disposed := false`) is pending in
the result, and its dispose handle is registered as a wrapper on the
PARENT's listener list — it is disposed when the parent cancels, not when
the child does; invoking that handle flips the timer's `disposed` flag. -/
theorem claim_C6_amended_timer_disposal_on_parent (n : Nat) (w : World) (pid : Nat) (pc : Ctx)
    (epoch : Int) (now? : Option Int) (res : World × Nat × Option Thrown)
    (hpc : w.ctx? pid = some pc) (hpr : pc.cancellationReason = none)
    (herr : errorF n w pid = some (w, none, none))
    (h : withDeadlineF n w pid epoch now? = some res)
    (hcond : newTimerCond (w.deadlineOf pid) epoch = true) :
    res.1.timers[w.timers.length]? = some (dlTimer w pid epoch now?) ∧
    (dlTimer w pid epoch now?).disposed = false ∧
    res.1.listenersOf pid =
      (pc.listeners ++ [⟨w.nextWid, .cancelChild w.ctxs.length⟩]) ++
        [⟨w.nextWid + 2, .disposeH (.tmr w.timers.length)⟩] ∧
    (disposeHandleF res.1 (.tmr w.timers.length)).timers[w.timers.length]? =
      some { dlTimer w pid epoch now? with disposed := true } := by
  have hlt : pid < w.ctxs.length := World.lt_of_ctx?_eq_some hpc
  rw [withDeadlineF_live n epoch now? hpc hpr herr] at h
  unfold dlRes at h
  rw [if_pos hcond] at h
  have hA : (appendTimer (dlW2 w pid epoch) (dlTimer w pid epoch now?)).ctx? pid =
      some { pc with listeners := pc.listeners ++ [⟨w.nextWid, .cancelChild w.ctxs.length⟩] } := by
    rw [appendTimer_ctx?]
    exact dlW2_ctx?_parent epoch hpc hlt
  rw [onDidCancelF_live n (.disposeH (.tmr (dlW2 w pid epoch).timers.length)) hA hpr] at h
  have hres := Option.some.inj h
  subst hres
  have htm : (pushW
      (withNextWid (appendTimer (dlW2 w pid epoch) (dlTimer w pid epoch now?))
        ((appendTimer (dlW2 w pid epoch) (dlTimer w pid epoch now?)).nextWid + 1))
      pid ⟨(appendTimer (dlW2 w pid epoch) (dlTimer w pid epoch now?)).nextWid,
        .disposeH (.tmr (dlW2 w pid epoch).timers.length)⟩).timers =
      w.timers ++ [dlTimer w pid epoch now?] := by
    rw [pushW_timers]
    show (appendTimer (dlW2 w pid epoch) (dlTimer w pid epoch now?)).timers = _
    rw [appendTimer_timers, dlW2_timers]
  have h1 : (pushW
      (withNextWid (appendTimer (dlW2 w pid epoch) (dlTimer w pid epoch now?))
        ((appendTimer (dlW2 w pid epoch) (dlTimer w pid epoch now?)).nextWid + 1))
      pid ⟨(appendTimer (dlW2 w pid epoch) (dlTimer w pid epoch now?)).nextWid,
        .disposeH (.tmr (dlW2 w pid epoch).timers.length)⟩).timers[w.timers.length]? =
      some (dlTimer w pid epoch now?) := by
    rw [htm]
    exact List.getElem?_concat_length _ _
  refine ⟨h1, rfl, ?_, disposeHandleF_tmr_set h1⟩
  have hnw : (appendTimer (dlW2 w pid epoch) (dlTimer w pid epoch now?)).nextWid =
      w.nextWid + 2 := dlW2_nextWid w pid epoch
  have hB : (withNextWid (appendTimer (dlW2 w pid epoch) (dlTimer w pid epoch now?))
      ((appendTimer (dlW2 w pid epoch) (dlTimer w pid epoch now?)).nextWid + 1)).ctx? pid =
      some { pc with listeners := pc.listeners ++ [⟨w.nextWid, .cancelChild w.ctxs.length⟩] } := by
    rw [withNextWid_ctx?]
    exact hA
  show (pushW (withNextWid (appendTimer (dlW2 w pid epoch) (dlTimer w pid epoch now?))
      ((appendTimer (dlW2 w pid epoch) (dlTimer w pid epoch now?)).nextWid + 1)) pid
      ⟨(appendTimer (dlW2 w pid epoch) (dlTimer w pid epoch now?)).nextWid,
        .disposeH (.tmr (dlW2 w pid epoch).timers.length)⟩).listenersOf pid = _
  rw [pushW_listenersOf_self _ hB, hnw, dlW2_timers]

theorem claim_C6_witness :
    (w0F.ctx? 0 = some cC6w ∧ cC6w.cancellationReason = none ∧
      errorF 19 w0F 0 = some (w0F, none, none) ∧
      withDeadlineF 19 w0F 0 100 none = some resC6w ∧
      newTimerCond (w0F.deadlineOf 0) 100 = true) ∧
    (resC6w.1.timers[w0F.timers.length]? = some (dlTimer w0F 0 100 none) ∧
      (dlTimer w0F 0 100 none).disposed = false ∧
      resC6w.1.listenersOf 0 =
        (cC6w.listeners ++ [⟨w0F.nextWid, .cancelChild w0F.ctxs.length⟩]) ++
          [⟨w0F.nextWid + 2, .disposeH (.tmr w0F.timers.length)⟩] ∧
      (disposeHandleF resC6w.1 (.tmr w0F.timers.length)).timers[w0F.timers.length]? =
        some { dlTimer w0F 0 100 none with disposed := true }) :=
  ⟨⟨by rfl, by rfl, by rfl, by rfl, by rfl⟩,
    claim_C6_amended_timer_disposal_on_parent 19 w0F 0 cC6w 100 none resC6w (by rfl) (by rfl)
      (by rfl) (by rfl) (by rfl)⟩

/-- `l.set i x = l` when slot `i` already holds `x`. -/
theorem listSet_self {α : Type _} (l : List α) (i : Nat) (x : α) (h : l[i]? = some x) :
    l.set i x = l := by
  have hlt : i < l.length := by
    rcases List.getElem?_eq_some.1 h with ⟨hl, _⟩
    exact hl
  ext j y
  rw [List.getElem?_set]
  split
  · rename_i hij
    subst hij
    simp [h, hlt]
  · rfl

theorem setListenersW_nil {w : World} {cid : Nat} {c : Ctx} (hc : w.ctx? cid = some c)
    (hl : c.listeners = []) : setListenersW w cid [] = w := by
  have hc' : w.ctxs[cid]? = some c := hc
  unfold setListenersW World.modifyCtx
  rw [hc', ← hl]
  show { w with ctxs := w.ctxs.set cid c } = w
  rw [listSet_self _ _ _ hc']

theorem appendLog_nil (w : World) : appendLog w [] = w := by
  unfold appendLog
  rw [List.append_nil]

/-- One drained user listener: shifting the queue and logging the call
commutes with finishing the drain. -/
theorem appendLog_setListeners_eq (w' w : World) (cid : Nat) (c : Ctx) (rest : List Wrapper)
    (e : Nat × Option Nat × Nat) (L : List (Nat × Option Nat × Nat))
    (hctxs : w'.ctxs = w.ctxs.set cid { c with listeners := rest })
    (hlog : w'.userLog = w.userLog ++ [e])
    (htime : w'.time = w.time) (hreasons : w'.reasons = w.reasons)
    (htimers : w'.timers = w.timers) (hnw : w'.nextWid = w.nextWid)
    (hth : w'.userThrows = w.userThrows)
    (hh : w'.hasUncaughtHandler = w.hasUncaughtHandler)
    (hul : w'.uncaughtLog = w.uncaughtLog)
    (hc : w.ctxs[cid]? = some c) :
    appendLog (setListenersW w' cid []) L = appendLog (setListenersW w cid []) (e :: L) := by
  have hltc : cid < w.ctxs.length := by
    rcases List.getElem?_eq_some.1 hc with ⟨h1, _⟩
    exact h1
  have hset : w'.ctxs[cid]? = some { c with listeners := rest } := by
    rw [hctxs, List.getElem?_set, if_pos rfl]
    simp [hltc]
  have hL : setListenersW w' cid [] =
      { w' with ctxs := w'.ctxs.set cid { c with listeners := [] } } := by
    unfold setListenersW World.modifyCtx
    rw [hset]
  have hR : setListenersW w cid [] =
      { w with ctxs := w.ctxs.set cid { c with listeners := [] } } := by
    unfold setListenersW World.modifyCtx
    rw [hc]
  rw [hL, hR]
  unfold appendLog
  refine World.ext ?_ ?_ ?_ ?_ ?_ ?_ ?_ ?_ ?_ <;>
    simp [hctxs, hlog, htime, hreasons, htimers, hnw, hth, hh, hul, List.set_set,
      List.append_assoc]

/-- Draining a queue of user listeners: every wrapper is shifted and
invoked in order with the stored reason, the ghost log grows by one entry
per user listener in queue order, and the collected exceptions are exactly
the throwing listeners' exceptions in queue order, appended to `acc`. -/
theorem drainF_users (n : Nat) : ∀ (w : World) (cid : Nat) (c : Ctx) (r : Nat)
    (acc : List Thrown),
    w.ctx? cid = some c →
    (∀ wr ∈ c.listeners, ∃ u, wr.fn = LFn.user u) →
    c.listeners.length < n →
    drainF n w cid r acc = some
      (appendLog (setListenersW w cid []) (userLogOf r c.listeners),
        acc ++ errsOf w.userThrows c.listeners) := by
  induction n with
  | zero =>
    intro w cid c r acc hc hus hlen
    exact absurd hlen (Nat.not_lt_zero _)
  | succ m ih =>
    intro w cid c r acc hc hus hlen
    have hc' : w.ctxs[cid]? = some c := hc
    rw [drainF, hc]
    show (match c.listeners with
      | [] => some (w, acc)
      | wr :: _ =>
        match invokeF m (shiftW w cid) wr.fn (some wr.wid) r with
        | none => none
        | some (w2, thrown) =>
          drainF m w2 cid r
            (acc ++ (match thrown with | some t => [t] | none => []))) = _
    cases hl : c.listeners with
    | nil =>
      simp [userLogOf, errsOf, setListenersW_nil hc hl, appendLog_nil]
    | cons wr rest =>
      obtain ⟨u, hufn⟩ := hus wr (by rw [hl]; exact List.mem_cons_self wr rest)
      cases m with
      | zero =>
        rw [hl] at hlen
        simp at hlen
      | succ k =>
        show (match invokeF (k + 1) (shiftW w cid) wr.fn (some wr.wid) r with
          | none => none
          | some (w2, thrown) =>
            drainF (k + 1) w2 cid r
              (acc ++ (match thrown with | some t => [t] | none => []))) = _
        rw [hufn]
        have hinv : invokeF (k + 1) (shiftW w cid) (LFn.user u) (some wr.wid) r =
            some ({ shiftW w cid with
                userLog := (shiftW w cid).userLog ++ [(u, some wr.wid, r)] },
              match lookupThrow (shiftW w cid).userThrows u with
              | some e => some (Thrown.userErr e)
              | none => none) := rfl
        rw [hinv]
        have hthst : (shiftW w cid).userThrows = w.userThrows :=
          World.userThrows_modifyCtx w cid _
        rw [hthst]
        have hcW1 : ({ shiftW w cid with
            userLog := (shiftW w cid).userLog ++ [(u, some wr.wid, r)] } : World).ctx? cid =
            some { c with listeners := rest } := by
          show (shiftW w cid).ctx? cid = _
          unfold shiftW
          rw [World.ctx?_modifyCtx_self, hc]
          show (some { c with listeners := c.listeners.tail } : Option Ctx) =
            some { c with listeners := rest }
          rw [hl]
          rfl
        have husW1 : ∀ wr' ∈ ({ c with listeners := rest } : Ctx).listeners,
            ∃ u', wr'.fn = LFn.user u' := by
          intro wr' hm
          exact hus wr' (by rw [hl]; exact List.mem_cons_of_mem _ hm)
        have hlenW1 : ({ c with listeners := rest } : Ctx).listeners.length < k + 1 := by
          rw [hl] at hlen
          exact Nat.lt_of_succ_lt_succ hlen
        have hsh : shiftW w cid =
            { w with ctxs := w.ctxs.set cid { c with listeners := rest } } := by
          unfold shiftW World.modifyCtx
          rw [hc']
          show { w with ctxs := w.ctxs.set cid { c with listeners := c.listeners.tail } } =
            { w with ctxs := w.ctxs.set cid { c with listeners := rest } }
          rw [hl]
          rfl
        have hthW1 : ({ shiftW w cid with
            userLog := (shiftW w cid).userLog ++ [(u, some wr.wid, r)] } : World).userThrows =
            w.userThrows := hthst
        cases hlk : lookupThrow w.userThrows u with
        | some e =>
          show drainF (k + 1)
              { shiftW w cid with
                userLog := (shiftW w cid).userLog ++ [(u, some wr.wid, r)] } cid r
              (acc ++ [Thrown.userErr e]) = _
          rw [ih _ cid { c with listeners := rest } r _ hcW1 husW1 hlenW1]
          congr 1
          congr 1
          · rw [userLogOf, hufn, hsh]
            exact appendLog_setListeners_eq
              { { w with ctxs := w.ctxs.set cid { c with listeners := rest } } with
                userLog := w.userLog ++ [(u, some wr.wid, r)] } w cid c rest
              (u, some wr.wid, r) (userLogOf r rest) rfl rfl rfl rfl rfl rfl rfl rfl rfl hc'
          · rw [hthW1]
            simp only [errsOf, hufn, hlk]
            simp [List.append_assoc]
        | none =>
          show drainF (k + 1)
              { shiftW w cid with
                userLog := (shiftW w cid).userLog ++ [(u, some wr.wid, r)] } cid r
              (acc ++ []) = _
          rw [ih _ cid { c with listeners := rest } r _ hcW1 husW1 hlenW1]
          congr 1
          congr 1
          · rw [userLogOf, hufn, hsh]
            exact appendLog_setListeners_eq
              { { w with ctxs := w.ctxs.set cid { c with listeners := rest } } with
                userLog := w.userLog ++ [(u, some wr.wid, r)] } w cid c rest
              (u, some wr.wid, r) (userLogOf r rest) rfl rfl rfl rfl rfl rfl rfl rfl rfl hc'
          · rw [hthW1]
            simp only [errsOf, hufn, hlk]
            simp

/-- C7: a notification cycle drains the listener queue collecting the
thrown exceptions in queue order (`errsOf`); exactly one collected
exception is forwarded as-is through the uncaught path (handler if
installed, rethrown otherwise — `notifyUncaughtF`), more than one are
wrapped, in order, in a single `AggregateError`, and none means nothing is
forwarded or thrown. -/
theorem claim_C7_exception_funnel (n : Nat) (w : World) (cid : Nat) (c : Ctx) (r : Nat)
    (hc : w.ctx? cid = some c) (hr : c.cancellationReason = some r)
    (hus : ∀ wr ∈ c.listeners, ∃ u, wr.fn = LFn.user u)
    (hlen : c.listeners.length < n) :
    notifyF (n + 1) w cid =
      some (match errsOf w.userThrows c.listeners with
        | [] => (appendLog (setListenersW w cid []) (userLogOf r c.listeners), none)
        | [e] =>
          notifyUncaughtF (appendLog (setListenersW w cid []) (userLogOf r c.listeners)) e
        | es =>
          notifyUncaughtF (appendLog (setListenersW w cid []) (userLogOf r c.listeners))
            (.agg es)) := by
  rw [notifyF, hc]
  show (match c.cancellationReason with
    | none => some (w, some Thrown.invariantErr)
    | some reason =>
      match drainF n w cid reason [] with
      | none => none
      | some (w1, errs) =>
        match errs with
        | [] => some (w1, none)
        | [e] => some (notifyUncaughtF w1 e)
        | es => some (notifyUncaughtF w1 (.agg es))) = _
  rw [hr]
  show (match drainF n w cid r [] with
    | none => none
    | some (w1, errs) =>
      match errs with
      | [] => some (w1, none)
      | [e] => some (notifyUncaughtF w1 e)
      | es => some (notifyUncaughtF w1 (.agg es))) = _
  rw [drainF_users n w cid c r [] hc hus hlen, List.nil_append]
  cases errsOf w.userThrows c.listeners with
  | nil => rfl
  | cons e es =>
    cases es with
    | nil => rfl
    | cons e2 es2 => rfl

theorem claim_C7_witness :
    (wC7.ctx? 0 = some cC7 ∧ cC7.cancellationReason = some 0 ∧
      (∀ wr ∈ cC7.listeners, ∃ u, wr.fn = LFn.user u) ∧ cC7.listeners.length < 9) ∧
    notifyF 10 wC7 0 =
      some (match errsOf wC7.userThrows cC7.listeners with
        | [] => (appendLog (setListenersW wC7 0 []) (userLogOf 0 cC7.listeners), none)
        | [e] =>
          notifyUncaughtF (appendLog (setListenersW wC7 0 []) (userLogOf 0 cC7.listeners)) e
        | es =>
          notifyUncaughtF (appendLog (setListenersW wC7 0 []) (userLogOf 0 cC7.listeners))
            (.agg es)) :=
  ⟨⟨by rfl, by rfl,
    by
      intro wr hm
      have hls : cC7.listeners = [⟨0, .user 10⟩, ⟨1, .user 11⟩, ⟨2, .user 12⟩] := rfl
      rw [hls] at hm
      simp [List.mem_cons] at hm
      rcases hm with h | h | h <;> subst h <;> exact ⟨_, rfl⟩,
    by decide⟩,
    claim_C7_exception_funnel 9 wC7 0 cC7 0 (by rfl) (by rfl)
      (by
        intro wr hm
        have hls : cC7.listeners = [⟨0, .user 10⟩, ⟨1, .user 11⟩, ⟨2, .user 12⟩] := rfl
        rw [hls] at hm
        simp [List.mem_cons] at hm
        rcases hm with h | h | h <;> subst h <;> exact ⟨_, rfl⟩)
      (by decide)⟩

theorem removeFirstWid_append_fresh (l : List Wrapper) (wid : Nat) (fn : LFn)
    (h : ∀ wr ∈ l, wr.wid ≠ wid) :
    removeFirstWid (l ++ [⟨wid, fn⟩]) wid = l := by
  induction l with
  | nil => simp [removeFirstWid]
  | cons a t ih =>
    rw [List.cons_append, removeFirstWid, if_neg (h a (List.mem_cons_self a t)),
      ih (fun wr hm => h wr (List.mem_cons_of_mem _ hm))]

/-- C8: `onDidCancel` on an already-cancelled context invokes the listener
synchronously with the stored reason (ghost-logged with no wrapper id —
the queue is bypassed), routes a thrown exception through the uncaught
path, and returns the no-op disposable without registering anything; on a
live context it appends one fresh wrapper and returns a disposable whose
disposal removes exactly that wrapper by its identity, leaving every other
context's listeners untouched. -/
theorem claim_C8_onDidCancel_paths (n : Nat) (w : World) (cid : Nat) (c : Ctx) (u : Nat)
    (fn : LFn) (hc : w.ctx? cid = some c)
    (hfresh : ∀ wr ∈ c.listeners, wr.wid ≠ w.nextWid) :
    (∀ r, c.cancellationReason = some r →
      onDidCancelF (n + 2) w cid (.user u) =
        some (match lookupThrow w.userThrows u with
          | some e =>
            ((notifyUncaughtF { w with userLog := w.userLog ++ [(u, none, r)] }
                (Thrown.userErr e)).1,
              DHandle.noop,
              (notifyUncaughtF { w with userLog := w.userLog ++ [(u, none, r)] }
                (Thrown.userErr e)).2)
          | none => ({ w with userLog := w.userLog ++ [(u, none, r)] }, DHandle.noop, none))) ∧
    (c.cancellationReason = none →
      onDidCancelF (n + 2) w cid fn =
        some (pushW { w with nextWid := w.nextWid + 1 } cid ⟨w.nextWid, fn⟩,
          .lst cid w.nextWid, none) ∧
      (disposeHandleF (pushW { w with nextWid := w.nextWid + 1 } cid ⟨w.nextWid, fn⟩)
        (.lst cid w.nextWid)).listenersOf cid = c.listeners ∧
      ∀ j, cid ≠ j →
        (disposeHandleF (pushW { w with nextWid := w.nextWid + 1 } cid ⟨w.nextWid, fn⟩)
          (.lst cid w.nextWid)).listenersOf j = w.listenersOf j) := by
  constructor
  · intro r hr
    unfold onDidCancelF
    rw [hc]
    show (match c.cancellationReason with
      | some r0 =>
        match invokeF (n + 1) w (LFn.user u) none r0 with
        | none => none
        | some (w1, thrown) =>
          match thrown with
          | some t =>
            match notifyUncaughtF w1 t with
            | (w2, esc) => some (w2, DHandle.noop, esc)
          | none => some (w1, DHandle.noop, none)
      | none =>
        some (pushW { w with nextWid := w.nextWid + 1 } cid ⟨w.nextWid, LFn.user u⟩,
          .lst cid w.nextWid, none)) = _
    rw [hr]
    show (match invokeF (n + 1) w (LFn.user u) none r with
      | none => none
      | some (w1, thrown) =>
        match thrown with
        | some t =>
          match notifyUncaughtF w1 t with
          | (w2, esc) => some (w2, DHandle.noop, esc)
        | none => some (w1, DHandle.noop, none)) = _
    have hinv : invokeF (n + 1) w (LFn.user u) none r =
        some ({ w with userLog := w.userLog ++ [(u, none, r)] },
          match lookupThrow w.userThrows u with
          | some e => some (Thrown.userErr e)
          | none => none) := rfl
    rw [hinv]
    cases hlk : lookupThrow w.userThrows u with
    | some e => rfl
    | none => rfl
  · intro hr0
    have hPW : (pushW { w with nextWid := w.nextWid + 1 } cid ⟨w.nextWid, fn⟩).ctx? cid =
        some { c with listeners := c.listeners ++ [⟨w.nextWid, fn⟩] } := by
      rw [pushW_ctx?_self]
      show ((w.ctx? cid).map _) = _
      rw [hc]
      rfl
    refine ⟨onDidCancelF_live (n + 2) fn hc hr0, ?_, ?_⟩
    · show (removeW (pushW { w with nextWid := w.nextWid + 1 } cid ⟨w.nextWid, fn⟩) cid
        w.nextWid).listenersOf cid = c.listeners
      unfold removeW
      rw [World.listenersOf_modifyCtx_self _ hPW]
      exact removeFirstWid_append_fresh c.listeners w.nextWid fn hfresh
    · intro j hj
      show (removeW (pushW { w with nextWid := w.nextWid + 1 } cid ⟨w.nextWid, fn⟩) cid
        w.nextWid).listenersOf j = w.listenersOf j
      unfold removeW
      rw [World.listenersOf_modifyCtx_ne _ hj]
      unfold pushW
      rw [World.listenersOf_modifyCtx_ne _ hj]
      rfl

theorem claim_C8_witness :
    (resC6.1.ctx? 1 = some cC8f ∧ cC8f.cancellationReason = some 0 ∧
      (∀ wr ∈ cC8f.listeners, wr.wid ≠ resC6.1.nextWid) ∧
      resC6.1.ctx? 0 = some cC8r ∧ cC8r.cancellationReason = none ∧
      (∀ wr ∈ cC8r.listeners, wr.wid ≠ resC6.1.nextWid)) ∧
    (onDidCancelF 7 resC6.1 1 (.user 5) =
      some (match lookupThrow resC6.1.userThrows 5 with
        | some e =>
          ((notifyUncaughtF { resC6.1 with userLog := resC6.1.userLog ++ [(5, none, 0)] }
              (Thrown.userErr e)).1,
            DHandle.noop,
            (notifyUncaughtF { resC6.1 with userLog := resC6.1.userLog ++ [(5, none, 0)] }
              (Thrown.userErr e)).2)
        | none =>
          ({ resC6.1 with userLog := resC6.1.userLog ++ [(5, none, 0)] },
            DHandle.noop, none))) ∧
    (onDidCancelF 7 resC6.1 0 (.user 6) =
      some (pushW { resC6.1 with nextWid := resC6.1.nextWid + 1 } 0 ⟨resC6.1.nextWid, .user 6⟩,
        .lst 0 resC6.1.nextWid, none) ∧
      (disposeHandleF (pushW { resC6.1 with nextWid := resC6.1.nextWid + 1 } 0
          ⟨resC6.1.nextWid, .user 6⟩) (.lst 0 resC6.1.nextWid)).listenersOf 0 =
        cC8r.listeners ∧
      ∀ j, 0 ≠ j →
        (disposeHandleF (pushW { resC6.1 with nextWid := resC6.1.nextWid + 1 } 0
          ⟨resC6.1.nextWid, .user 6⟩) (.lst 0 resC6.1.nextWid)).listenersOf j =
          resC6.1.listenersOf j) :=
  ⟨⟨by rfl, by rfl, by decide, by rfl, by rfl, by decide⟩,
    (claim_C8_onDidCancel_paths 5 resC6.1 1 cC8f 5 (.user 5) (by rfl) (by decide)).1 0 (by rfl),
    (claim_C8_onDidCancel_paths 5 resC6.1 0 cC8r 6 (.user 6) (by rfl) (by decide)).2 (by rfl)⟩

theorem sum_map_set_add {α : Type _} (g : α → Nat) (x : α) :
    ∀ (l : List α) (i : Nat) (c : α) (k : Nat), l[i]? = some c → g x + k = g c →
      ((l.set i x).map g).sum + k = (l.map g).sum := by
  intro l
  induction l with
  | nil =>
    intro i c k h
    cases h
  | cons a t ih =>
    intro i c k h hgx
    cases i with
    | zero =>
      rw [List.getElem?_cons_zero] at h
      have ha : a = c := Option.some.inj h
      subst ha
      simp [List.set]
      omega
    | succ j =>
      rw [List.getElem?_cons_succ] at h
      have ht := ih j c k h hgx
      simp [List.set, List.map_set] at ht ⊢
      omega

theorem sum_map_set_le {α : Type _} (g : α → Nat) (x : α)
    (l : List α) (i : Nat) (c : α) (h : l[i]? = some c) (hle : g x ≤ g c) :
    ((l.set i x).map g).sum ≤ (l.map g).sum := by
  obtain ⟨k, hk⟩ := Nat.le.dest hle
  have := sum_map_set_add g x l i c k h hk
  omega

theorem cntW_modifyCtx_eq {f : Ctx → Ctx} (w : World) (i wid : Nat)
    (hf : ∀ c, (f c).listeners = c.listeners) :
    cntW (w.modifyCtx i f) wid = cntW w wid := by
  unfold cntW cntL cntLog World.modifyCtx
  split
  · rename_i c hc
    have h1 : ((w.ctxs.set i (f c)).map (wrCnt wid)).sum + 0 = (w.ctxs.map (wrCnt wid)).sum :=
      sum_map_set_add (wrCnt wid) (f c) w.ctxs i c 0 hc
        (by unfold wrCnt; rw [hf c]; omega)
    show ((w.ctxs.set i (f c)).map (wrCnt wid)).sum + w.userLog.countP _ = _
    omega
  · rfl

theorem cntW_modifyCtx_le {f : Ctx → Ctx} (w : World) (i wid : Nat)
    (hf : ∀ c, wrCnt wid (f c) ≤ wrCnt wid c) :
    cntW (w.modifyCtx i f) wid ≤ cntW w wid := by
  unfold cntW cntL cntLog World.modifyCtx
  split
  · rename_i c hc
    have h1 := sum_map_set_le (wrCnt wid) (f c) w.ctxs i c hc (hf c)
    show ((w.ctxs.set i (f c)).map (wrCnt wid)).sum + w.userLog.countP _ ≤ _
    omega
  · exact Nat.le_refl _

theorem cntW_setReasonW (w : World) (i : Nat) (r : Option Nat) (wid : Nat) :
    cntW (setReasonW w i r) wid = cntW w wid :=
  cntW_modifyCtx_eq w i wid (fun _ => rfl)

theorem cntW_disposeHandle (w : World) (h : DHandle) (wid : Nat) :
    cntW (disposeHandleF w h) wid ≤ cntW w wid := by
  cases h with
  | noop => exact Nat.le_refl _
  | lst t wid2 =>
    show cntW (removeW w t wid2) wid ≤ cntW w wid
    unfold removeW
    refine cntW_modifyCtx_le w t wid (fun c => ?_)
    unfold wrCnt
    exact List.Sublist.countP_le _ (removeFirstWid_sublist c.listeners wid2)
  | tmr tid =>
    show cntW (match w.timers[tid]? with
      | some t => { w with timers := w.timers.set tid { t with disposed := true } }
      | none => w) wid ≤ cntW w wid
    split
    · exact Nat.le_refl _
    · exact Nat.le_refl _

theorem cntW_notifyUncaught (w : World) (t : Thrown) (wid : Nat) :
    cntW (notifyUncaughtF w t).1 wid = cntW w wid := by
  unfold notifyUncaughtF
  split <;> rfl

theorem cnt_drain_step {w : World} {cid : Nat} {c : Ctx} {wr : Wrapper} {rest : List Wrapper}
    (wid : Nat) (hc : w.ctx? cid = some c) (hl : c.listeners = wr :: rest) :
    cntL (shiftW w cid) wid + (if wr.wid == wid then 1 else 0) = cntL w wid := by
  unfold cntL shiftW World.modifyCtx
  rw [show w.ctxs[cid]? = some c from hc]
  show ((w.ctxs.set cid { c with listeners := c.listeners.tail }).map (wrCnt wid)).sum + _ = _
  refine sum_map_set_add (wrCnt wid) _ w.ctxs cid c _ hc ?_
  unfold wrCnt
  show c.listeners.tail.countP _ + _ = _
  rw [hl]
  show rest.countP _ + _ = (wr :: rest).countP _
  rw [List.countP_cons]

theorem cntLog_shiftW (w : World) (cid wid : Nat) :
    cntLog (shiftW w cid) wid = cntLog w wid := by
  unfold cntLog shiftW
  rw [World.userLog_modifyCtx]

theorem cntLog_append_user (w : World) (u : Nat) (wid? : Option Nat) (rid wid : Nat) :
    cntLog { w with userLog := w.userLog ++ [(u, wid?, rid)] } wid =
      cntLog w wid + (if wid? == some wid then 1 else 0) := by
  unfold cntLog
  show (w.userLog ++ [(u, wid?, rid)]).countP _ = _
  rw [List.countP_append]
  simp [List.countP_cons]

/-- The synchronous executor never increases the number of registrations
plus deliveries of any fixed wrapper id; a direct `invokeF` (whose caller
has already shifted the wrapper out of the queue) can add at most the one
delivery it logs. -/
theorem cntExec (wid : Nat) : ∀ n : Nat,
    (∀ w cid rid res, cancelF n w cid rid = some res → cntW res.1 wid ≤ cntW w wid) ∧
    (∀ w cid res, errorF n w cid = some res → cntW res.1 wid ≤ cntW w wid) ∧
    (∀ w dl cid res, errorDeadlineF n w dl cid = some res → cntW res.1 wid ≤ cntW w wid) ∧
    (∀ w cid res, notifyF n w cid = some res → cntW res.1 wid ≤ cntW w wid) ∧
    (∀ w cid r acc res, drainF n w cid r acc = some res → cntW res.1 wid ≤ cntW w wid) ∧
    (∀ w fn wid? rid res, invokeF n w fn wid? rid = some res →
      cntW res.1 wid ≤ cntW w wid + (if wid? == some wid then 1 else 0)) := by
  intro n
  induction n with
  | zero =>
    refine ⟨?_, ?_, ?_, ?_, ?_, ?_⟩
    · intro _ _ _ _ h; simp [cancelF] at h
    · intro _ _ _ h; simp [errorF] at h
    · intro _ _ _ _ h; simp [errorDeadlineF] at h
    · intro _ _ _ h; simp [notifyF] at h
    · intro _ _ _ _ _ h; simp [drainF] at h
    · intro _ _ _ _ _ h; simp [invokeF] at h
  | succ n ih =>
    obtain ⟨ihC, ihE, ihD, ihN, ihR, ihI⟩ := ih
    refine ⟨?_, ?_, ?_, ?_, ?_, ?_⟩
    · -- cancelF
      intro w cid rid res h
      rw [cancelF] at h
      split at h
      · exact absurd h (by simp)
      · rename_i w1 res1 esc1 heq
        have h1 := ihE w cid _ heq
        split at h
        · cases h; exact h1
        · split at h
          · cases h; exact h1
          · have h2 := ihN _ _ _ h
            rw [cntW_setReasonW] at h2
            exact Nat.le_trans h2 h1
    · -- errorF
      intro w cid res h
      rw [errorF] at h
      split at h
      · cases h; exact Nat.le_refl _
      · rename_i c hc
        split at h
        · cases h; exact Nat.le_refl _
        · split at h
          · rename_i p hp
            split at h
            · exact absurd h (by simp)
            · rename_i w1 pres pesc heq
              have h1 := ihE w p _ heq
              split at h
              · cases h; exact h1
              · split at h
                · split at h
                  · exact absurd h (by simp)
                  · rename_i w3 esc hn
                    have h2 := ihN _ _ _ hn
                    rw [cntW_setReasonW] at h2
                    cases h
                    exact Nat.le_trans h2 h1
                · exact Nat.le_trans (ihD _ _ _ _ h) h1
          · exact ihD _ _ _ _ h
    · -- errorDeadlineF
      intro w dl cid res h
      cases dl with
      | none => rw [errorDeadlineF] at h; cases h; exact Nat.le_refl _
      | some d =>
        rw [errorDeadlineF] at h
        split at h
        · split at h
          · exact absurd h (by simp)
          · rename_i w3 esc hn
            have h2 := ihN _ _ _ hn
            rw [cntW_setReasonW] at h2
            cases h
            exact h2
        · cases h; exact Nat.le_refl _
    · -- notifyF
      intro w cid res h
      rw [notifyF] at h
      split at h
      · cases h; exact Nat.le_refl _
      · rename_i c hc
        split at h
        · cases h; exact Nat.le_refl _
        · rename_i reason hr
          split at h
          · exact absurd h (by simp)
          · rename_i w1 errs hd
            have h1 := ihR w cid reason [] _ hd
            split at h
            · cases h; exact h1
            · cases h
              show cntW (notifyUncaughtF w1 _).1 wid ≤ _
              rw [cntW_notifyUncaught]
              exact h1
            · cases h
              show cntW (notifyUncaughtF w1 _).1 wid ≤ _
              rw [cntW_notifyUncaught]
              exact h1
    · -- drainF
      intro w cid r acc res h
      rw [drainF] at h
      split at h
      · cases h; exact Nat.le_refl _
      · rename_i c hc
        split at h
        · cases h; exact Nat.le_refl _
        · rename_i wr rest hl
          split at h
          · exact absurd h (by simp)
          · rename_i w2 thrown hi
            have h1 := ihI _ _ _ _ _ hi
            have h2 := ihR _ _ _ _ _ h
            have h3 := cnt_drain_step wid hc hl
            have h4 : cntLog (shiftW w cid) wid = cntLog w wid := cntLog_shiftW w cid wid
            have h5 : (((some wr.wid : Option Nat) == some wid) : Bool) = (wr.wid == wid) := rfl
            rw [h5] at h1
            have h6 : cntL w2 wid + cntLog w2 wid ≤
                (cntL (shiftW w cid) wid + cntLog (shiftW w cid) wid) +
                  (if wr.wid == wid then 1 else 0) := h1
            have h7 : cntL res.1 wid + cntLog res.1 wid ≤ cntL w2 wid + cntLog w2 wid := h2
            show cntL res.1 wid + cntLog res.1 wid ≤ cntL w wid + cntLog w wid
            omega
    · -- invokeF
      intro w fn wid? rid res h
      cases fn with
      | cancelChild c =>
        rw [invokeF] at h
        exact Nat.le_trans (ihC _ _ _ _ h) (Nat.le_add_right _ _)
      | disposeH hd =>
        rw [invokeF] at h
        cases h
        exact Nat.le_trans (cntW_disposeHandle w _ wid) (Nat.le_add_right _ _)
      | user u =>
        rw [invokeF] at h
        cases h
        show cntW { w with userLog := w.userLog ++ [(u, wid?, rid)] } wid ≤ _
        unfold cntW
        rw [show cntL { w with userLog := w.userLog ++ [(u, wid?, rid)] } wid =
          cntL w wid from rfl, cntLog_append_user]
        omega

/-- C9: over a cancellation cycle, registrations plus queue deliveries of
any wrapper id never increase; hence a wrapper registered at most once is
delivered at most once, and a wrapper already removed (disposed) before
the cycle — zero registrations, zero deliveries — is never invoked: no
delivery to it is ever logged. -/
theorem claim_C9_at_most_once (n : Nat) (w : World) (cid rid wid : Nat)
    (res : World × Option Thrown) (h : cancelF n w cid rid = some res) :
    cntW res.1 wid ≤ cntW w wid ∧
    (cntW w wid ≤ 1 → cntLog res.1 wid ≤ 1) ∧
    (cntW w wid = 0 → cntLog res.1 wid = 0) := by
  have h1 := (cntExec wid n).1 w cid rid res h
  have h2 : cntW res.1 wid = cntL res.1 wid + cntLog res.1 wid := rfl
  have h3 : cntW w wid = cntL w wid + cntLog w wid := rfl
  exact ⟨h1, fun hle => by omega, fun h0 => by omega⟩

theorem claim_C9_witness :
    (cancelF 20 wC9r 0 0 = some resC9 ∧ cntW wC9r 0 = 1 ∧ cntW wC9r 1 = 0 ∧
      resC9.1.userLog = [(20, some 0, 0)]) ∧
    (cntW resC9.1 0 ≤ cntW wC9r 0 ∧ (cntW wC9r 0 ≤ 1 → cntLog resC9.1 0 ≤ 1) ∧
      (cntW wC9r 0 = 0 → cntLog resC9.1 0 = 0)) ∧
    (cntW resC9.1 1 ≤ cntW wC9r 1 ∧ (cntW wC9r 1 ≤ 1 → cntLog resC9.1 1 ≤ 1) ∧
      (cntW wC9r 1 = 0 → cntLog resC9.1 1 = 0)) :=
  ⟨⟨by rfl, by decide, by decide, by rfl⟩,
    claim_C9_at_most_once 20 wC9r 0 0 0 resC9 (by rfl),
    claim_C9_at_most_once 20 wC9r 0 0 1 resC9 (by rfl)⟩

/-- C10: a node whose own key slot is unset (stored `undefined`, as the
background root and the children made by `withCancel` / `withDeadline` /
`withTimeout` leave it) answers `hasValue(undefined)` with `true` and
`getValue(undefined)` with its (equally unset) value `undefined` at the
node itself — the strict-equality check `this[kKey] === key` succeeds on
`undefined === undefined`, so no ancestor is ever consulted. -/
theorem claim_C10_undefined_key (n : Nat) (w : World) (cid : Nat) (c : Ctx)
    (hc : w.ctx? cid = some c) (hk : c.key = JSVal.undef) (hv : c.value = JSVal.undef) :
    hasValueF (n + 1) w cid .undef = some true ∧
    getValueF (n + 1) w cid .undef = some JSVal.undef := by
  constructor
  · rw [hasValueF, hc]
    simp [hk]
  · rw [getValueF, hc]
    simp [hk, hv]

theorem claim_C10_witness :
    (wC1b.ctx? 2 = some cC10 ∧ cC10.key = JSVal.undef ∧ cC10.value = JSVal.undef ∧
      cC10.parent = some 1) ∧
    (hasValueF 5 wC1b 2 .undef = some true ∧ getValueF 5 wC1b 2 .undef = some JSVal.undef) :=
  ⟨⟨by rfl, by rfl, by rfl, by rfl⟩,
    claim_C10_undefined_key 4 wC1b 2 cC10 (by rfl) (by rfl) (by rfl)⟩
